import Mathlib

/-!
# Verification of the WORDGAMI puzzle core (`src/letterslide/src/App.tsx`)

This file gives a shallow embedding of the puzzle state engine of the
free-swap word game: board generation (`makeCampaignBoard` and its helpers),
the duplicate-safe mark engine (`computeMarks`), the green-credit diff
(`newlyGreenIDs`), and the React component's session state machine
(`performSwap`, the decay interval, the row-celebration timeout and the
loss / row-cleared / win effects), together with theorems about them.

Conventions of the embedding:

* JavaScript strings that hold words become `List Char`; single-character
  strings (tile characters) become `Char`.
* `Math.random()`-based choice (`rand (n) = Math.floor(Math.random()*n)`)
  is modelled by an explicit stream of naturals `g : Nat → Nat` together
  with a counter; each call consumes one stream value and reduces it
  `% n`, which realizes exactly the values `0 .. n-1` that `rand` can
  return (and `0` for `n = 0`, where `rand` also returns `0`).
* Scores are kept in integer half-points (twice the JS value).  All
  score constants are multiples of `1/2` and every reachable score is a
  sum of them, so IEEE double arithmetic in the source is exact and the
  doubled-integer representation is faithful (see `SCORE_START`).
* A JavaScript `Map` becomes an association list with the `Map.set`
  replace-or-append semantics (insertion order preserved), a `Set` of
  numbers becomes a duplicate-free `List Nat` grown by append.
* The React component is modelled as an event-driven transition system:
  external events (a validated swap, a one-second decay tick, the 650 ms
  celebration timeout, a restart) update the state, after which the
  synchronous `useEffect` chain runs.  Effects of one flush all read the
  state committed by the event (captured-closure semantics) and their
  writes are merged; the effect chain is idempotent on its own output
  (each effect's guard can only be turned *off* by the writes of the
  others in the same flush), so a single pass settles the state exactly
  as the cascading React renders do.
-/

set_option maxRecDepth 100000

namespace Wordgami

/-- The four tile hints of `export type Hint = "g" | "o" | "y" | "x"`. -/
inductive Hint where
  | g | o | y | x
deriving DecidableEq, Repr

/-- `type Tile = { id: number; char: string }` (the char is one letter). -/
structure Tile where
  id : Nat
  char : Char
deriving DecidableEq, Repr

/-- `const idx = (r, c, size) => r * size + c` -/
def cellIdx (r c size : Nat) : Nat := r * size + c

/-- The row of `const rc = (i, size) => ({ r: Math.floor(i / size), c: i % size })`. -/
def rowOf (i size : Nat) : Nat := i / size

/-- The column of `rc`. -/
def colOf (i size : Nat) : Nat := i % size

/-- `const swapArr = (a, i, j) => { const t = a[i]; a[i] = a[j]; a[j] = t }`.
For in-range indices this is exactly the JS array swap.  (With an
out-of-range index the JS code would write `undefined` into the array;
every call site in the source supplies in-range indices, and we make the
out-of-range case a no-op to stay total.) -/
def swapList {α : Type} (l : List α) (i j : Nat) : List α :=
  match l[i]?, l[j]? with
  | some x, some y => (l.set i y).set j x
  | _, _ => l

/-- `rowString(board, size, r)`: the `size` characters of row `r`, with a
space for a missing tile (`board[idx(r,c,size)]?.char ?? " "`). -/
def rowString (board : List Tile) (size r : Nat) : List Char :=
  (List.range size).map (fun c => ((board[cellIdx r c size]?).map Tile.char).getD ' ')

/-- The per-size word pools `const WORDS: Record<number, string[]>`.
`none` for a size that has no pool (JS `undefined`).  Note that the
4-letter pool ships the five-letter word `"BREAD"`. -/
def WORDSopt : Nat → Option (List (List Char))
  | 3 => some (["CAT","DOG","SUN","MAP","BOX","HAT","CAR","BUS","ANT","BEE",
                "FOX","OWL","BAT","JAR","KEY","LIP","MUG","PEN","RUG","EGG"].map
                String.toList)
  | 4 => some (["CODE","GAME","PLAY","WORD","MATH","TREE","LEAF","FISH","BIRD",
                "LION","WOLF","FIRE","WIND","SNOW","RAIN","STAR","MOON","SHIP",
                "ROAD","BOOK","DOOR","MILK","BREAD","CORN"].map String.toList)
  | 5 => some (["APPLE","LEVEL","QUEST","TRAIL","SHIFT","ABOUT","AFTER","AGAIN",
                "OTHER","HEART","PLANT","GRAPE","MANGO","TIGER","RIVER","MUSIC",
                "LIGHT","SOUND","BREAD","WATER","EARTH","WORLD","SMILE","CHAIR",
                "TABLE","POINT","RIGHT","UNDER","GREEN","BROWN","BLACK","WHITE",
                "STONE","FIELD","HOUSE","BRICK","PLANE","TRAIN","CLOUD","STORM",
                "SHINE","QUIET","NOISE","HAPPY","TIMES","QUICK","SWEET","SHARP",
                "ROUND"].map String.toList)
  | 6 => some (["FLOWER","PUZZLE","BINARY","MARKET","BRIDGE","ORANGE","PURPLE",
                "YELLOW","SILVER","NATURE","RIVERS","GALAXY","PLANET","STREAM",
                "THINGS","LETTER","SPIRIT","WINDOW","GARDEN","SCHOOL","FRIEND",
                "ANIMAL","PEOPLE","FUTURE","PENCIL","NUMBER","POCKET","CAMERA",
                "PILLOW","MARKER","BUTTON","CHERRY","BANANA","BOTTLE","FOLLOW",
                "SPRING","SUMMER","AUTUMN","WINTER","CANDLE","CRAYON","DANCER",
                "ENGINE","FABRIC","GOBLET","HANDLE","INSECT"].map String.toList)
  | _ => none

/-- Explicit random stream: `g` produces the raw draws, `k` counts the
calls made so far. -/
structure Rng where
  g : Nat → Nat
  k : Nat

/-- One call of `const rand = (n) => Math.floor(Math.random() * n)`:
a value `< n` (and `0` when `n = 0`), advancing the stream. -/
def Rng.next (rng : Rng) (n : Nat) : Nat × Rng :=
  ((if n = 0 then 0 else rng.g rng.k % n), ⟨rng.g, rng.k + 1⟩)

/-- `/^[A-Z]+$/` on a single character. -/
def isUpperAlpha (c : Char) : Bool := 'A' ≤ c && c ≤ 'Z'

/-- `preferred?.toUpperCase()`. -/
def toUpperWord (w : List Char) : List Char := w.map Char.toUpper

/-- `pickWord(size, preferred?)`: the uppercased preferred word if it is a
nonempty all-letter word of exactly `size` characters, otherwise a random
word of the pool for `size` (falling back to `"A".repeat(size)` when the
size has no pool). -/
def pickWord (size : Nat) (preferred : Option (List Char)) (rng : Rng) :
    List Char × Rng :=
  let up := preferred.map toUpperWord
  let valid : Bool :=
    match up with
    | some u => !u.isEmpty && u.length == size && u.all isUpperAlpha
    | none => false
  match up, valid with
  | some u, true => (u, rng)
  | _, _ =>
    let pool := (WORDSopt size).getD [List.replicate size 'A']
    let (i, rng') := rng.next pool.length
    (pool.getD i [], rng')

/-- `Array.from(new Set(...))`: deduplication keeping the first
occurrence of each element, in order. -/
def dedupFirst (l : List (List Char)) : List (List Char) :=
  l.foldl (fun acc w => if w ∈ acc then acc else acc ++ [w]) []

/-- The Fisher–Yates loop of `chooseCampaignWords`
(`for (let i = poolAll.length - 1; i > 0; i--) { const j = rand(i + 1); swap }`);
the argument `i` is the loop variable. -/
def fyAux : Nat → List (List Char) → Rng → List (List Char) × Rng
  | 0, l, rng => (l, rng)
  | i + 1, l, rng =>
    let (j, rng') := rng.next (i + 2)
    fyAux i (swapList l (i + 1) j) rng'

/-- Shuffle of the whole pool. -/
def fyShuffle (l : List (List Char)) (rng : Rng) : List (List Char) × Rng :=
  fyAux (l.length - 1) l rng

/-- The body of
`while (words.length < size && poolAll.length) words.push(poolAll.pop()!)`:
each pass appends the pool's last element and drops it from the pool, so
`size - words.length` is the remaining iteration budget. -/
def popFillAux : Nat → List (List Char) → List (List Char) →
    List (List Char) × List (List Char)
  | 0, words, pool => (words, pool)
  | fuel + 1, words, pool =>
    match pool.getLast? with
    | some last => popFillAux fuel (words ++ [last]) pool.dropLast
    | none => (words, pool)

/-- `while (words.length < size && poolAll.length) words.push(poolAll.pop()!)`. -/
def popFill (size : Nat) (words pool : List (List Char)) :
    List (List Char) × List (List Char) :=
  popFillAux (size - words.length) words pool

/-- The guarded fallback loop of `chooseCampaignWords`
(`while (words.length < size && guard < 1000) { ... }`); `fuel` is the
remaining guard budget. -/
def fbLoop (size : Nat) (fallback : List (List Char)) :
    Nat → List (List Char) → Rng → List (List Char) × Rng
  | 0, words, rng => (words, rng)
  | fuel + 1, words, rng =>
    if words.length < size then
      let (i, rng') := rng.next fallback.length
      let w0 := fallback.getD i []
      -- `fallback[rand(...)] || pickWord(size)`: a missing (or empty) entry
      -- falls through to `pickWord`.
      let (w, rng'') := if w0.isEmpty then pickWord size none rng' else (w0, rng')
      let words' := if w ∈ words then words else words ++ [w]
      fbLoop size fallback fuel words' rng''
    else (words, rng)

/-- `chooseCampaignWords(size, preferredFirst?)`: unique row words, with an
optional (validated) preferred first word.  A JS caller passing the empty
string hits the falsy branch of `if (preferredFirst)`, which we model by
the `isEmpty` test. -/
def chooseCampaignWords (size : Nat) (pref : Option (List Char)) (rng : Rng) :
    List (List Char) × Rng :=
  let poolAll := dedupFirst ((WORDSopt size).getD [])
  let (words0, pool0, rng0) :=
    match pref with
    | some p =>
      if p.isEmpty then (([] : List (List Char)), poolAll, rng)
      else
        let (first, rng') := pickWord size (some p) rng
        -- `if (!words.includes(first)) words.push(first)` with `words = []`
        -- always pushes; the `splice` removes `first` from the pool.
        ([first], poolAll.erase first, rng')
    | none => ([], poolAll, rng)
  let (pool1, rng1) := fyShuffle pool0 rng0
  let (words1, _) := popFill size words0 pool1
  let fallback := (WORDSopt size).getD []
  let (words2, rng2) := fbLoop size fallback 1000 words1 rng1
  (words2.take size, rng2)

/-- The row-major solved layout built by `makeCampaignBoard` before
shuffling: `board[r*size+c] = { id: r*size+c+1, char: words[r][c] }`.
(A missing character — only possible for a word shorter than `size`,
which no shipped pool contains — is modelled as `' '`.) -/
def initialBoard (size : Nat) (words : List (List Char)) : List Tile :=
  (List.range size).flatMap (fun r =>
    (List.range size).map (fun c =>
      { id := r * size + c + 1, char := (words.getD r []).getD c ' ' }))

/-- One step of `shuffleByAdjSwaps`: pick a random cell `a`, collect its
grid neighbours (up, down, left, right, in the source's push order), pick
one uniformly and swap.  (`neigh` is nonempty whenever `size ≥ 2`; the
`getD a` default makes the impossible empty case a no-op.) -/
def shuffleStep (size : Nat) (board : List Tile) (rng : Rng) : List Tile × Rng :=
  let (a, rng1) := rng.next board.length
  let r := a / size
  let c := a % size
  let neigh : List Nat :=
    (if r > 0 then [cellIdx (r - 1) c size] else []) ++
    (if r < size - 1 then [cellIdx (r + 1) c size] else []) ++
    (if c > 0 then [a - 1] else []) ++
    (if c < size - 1 then [a + 1] else [])
  let (bi, rng2) := rng1.next neigh.length
  let b := neigh.getD bi a
  (swapList board a b, rng2)

/-- `shuffleByAdjSwaps(board, size, steps)`. -/
def shuffleByAdjSwaps (size : Nat) : Nat → List Tile → Rng → List Tile × Rng
  | 0, board, rng => (board, rng)
  | s + 1, board, rng =>
    let (b', rng') := shuffleStep size board rng
    shuffleByAdjSwaps size s b' rng'

/-- `words.some((w, r) => rowString(board, size, r) === w)`. -/
def anyRowSolved (words : List (List Char)) (board : List Tile) (size : Nat) :
    Bool :=
  words.enum.any (fun p => rowString board size p.1 == p.2)

/-- The bounded retry loop of `makeCampaignBoard`
(`while (isAnyRowSolved() && tries < 50) { extra mixing; tries++ }`);
returns the board, the stream, and the number of retries used. -/
def retryLoop (words : List (List Char)) (size : Nat) :
    Nat → List Tile → Rng → List Tile × Rng × Nat
  | 0, board, rng => (board, rng, 0)
  | fuel + 1, board, rng =>
    if anyRowSolved words board size then
      let (b', rng') := shuffleByAdjSwaps size (size * size) board rng
      let (b'', rng'', t) := retryLoop words size fuel b' rng'
      (b'', rng'', t + 1)
    else (board, rng, 0)

/-- `makeCampaignBoard(size, maybeWord?)`, also exposing the number of
retries the no-solved-row loop used (the source discards it). -/
def makeCampaignBoardAux (size : Nat) (pref : Option (List Char)) (rng : Rng) :
    List (List Char) × List Tile × Rng × Nat :=
  let (words, rng1) := chooseCampaignWords size pref rng
  let b0 := initialBoard size words
  let baseSteps := max 300 (size * size * 10)
  let (b1, rng2) := shuffleByAdjSwaps size baseSteps b0 rng1
  let (b2, rng3, tries) := retryLoop words size 50 b1 rng2
  (words, b2, rng3, tries)

/-- `makeCampaignBoard(size, maybeWord?) → { words, board }` (plus the
advanced random stream). -/
def makeCampaignBoard (size : Nat) (pref : Option (List Char)) (rng : Rng) :
    List (List Char) × List Tile × Rng :=
  let (words, board, rng', _) := makeCampaignBoardAux size pref rng
  (words, board, rng')

/-! ## The mark engine (`computeMarks`) -/

/-- The `Map<number, Hint>` of `computeMarks`, as an association list in
insertion order. -/
abbrev Marks := List (Nat × Hint)

/-- `marks.get(id)`. -/
def mlookup (m : Marks) (k : Nat) : Option Hint :=
  match m.find? (fun p => p.1 == k) with
  | some p => some p.2
  | none => none

/-- `marks.has(id)`. -/
def mhas (m : Marks) (k : Nat) : Bool :=
  (m.find? (fun p => p.1 == k)).isSome

/-- `marks.set(id, h)`: replace in place if the key is present, else
append (JS `Map` keeps the original insertion position on overwrite). -/
def mset (m : Marks) (k : Nat) (h : Hint) : Marks :=
  if mhas m k then m.map (fun p => if p.1 == k then (k, h) else p)
  else m ++ [(k, h)]

/-- A `Record<string, number>` need counter: total function with default
`0` (the `(need[ch] || 0)` reads of the source). -/
abbrev Need := Char → Int

/-- `need[ch] = (need[ch] || 0) + 1`. -/
def bumpNeed (need : Need) (ch : Char) : Need :=
  fun x => if x = ch then need ch + 1 else need x

/-- `need[ch]!--`. -/
def decNeed (need : Need) (ch : Char) : Need :=
  fun x => if x = ch then need ch - 1 else need x

/-- Update one entry of an indexed family of counters (one
`Record<string, number>` per row / column). -/
def updAt (f : Nat → Need) (i : Nat) (n : Need) : Nat → Need :=
  fun j => if j = i then n else f j

/-- The character the target word of row `r` puts at column `c`:
`secrets[r].word[c]` (`none` for JS `undefined`). -/
def targetAt (secrets : List (List Char)) (r c : Nat) : Option Char :=
  (secrets.getD r []).get? c

/-- `rowNeed[r][ch]`: count of `ch` among the first `size` characters of
the target word of row `r` (the source loops `k = 0 .. size-1` over
`w[k]`; an out-of-range read contributes nothing a tile can match). -/
def mkRowNeed (secrets : List (List Char)) (size : Nat) : Nat → Need :=
  fun r =>
    (List.range size).foldl
      (fun need k =>
        match targetAt secrets r k with
        | some ch => bumpNeed need ch
        | none => need)
      (fun _ => 0)

/-- `colNeed[c][ch]`: count of `ch` among the target characters that the
rows `0 .. size-1` put in column `c`. -/
def mkColNeed (secrets : List (List Char)) (size : Nat) : Nat → Need :=
  fun c =>
    (List.range size).foldl
      (fun need r =>
        match targetAt secrets r c with
        | some ch => bumpNeed need ch
        | none => need)
      (fun _ => 0)

/-- State threaded through the four passes of `computeMarks`:
the marks map and the per-row / per-column need counters. -/
structure MarkSt where
  marks : Marks
  rowNeed : Nat → Need
  colNeed : Nat → Need

/-- Pass 1 (`// pass 1: mark greens and decrement both row & col needs`). -/
def pass1 (board : List Tile) (size : Nat) (secrets : List (List Char))
    (st : MarkSt) : MarkSt :=
  (List.range (size * size)).foldl
    (fun st i =>
      match board[i]? with
      | none => st
      | some t =>
        let r := i / size
        let c := i % size
        if targetAt secrets r c = some t.char then
          { marks := mset st.marks t.id .g
            rowNeed := updAt st.rowNeed r (decNeed (st.rowNeed r) t.char)
            colNeed := updAt st.colNeed c (decNeed (st.colNeed c) t.char) }
        else st)
    st

/-- Pass 2 (`// pass 2: row oranges (correct row, wrong col), skip rows
already locked`). -/
def pass2 (board : List Tile) (size : Nat) (secrets : List (List Char))
    (locked : List Nat) (st : MarkSt) : MarkSt :=
  (List.range size).foldl
    (fun st r =>
      if r ∈ locked then st
      else
        (List.range size).foldl
          (fun st c =>
            match board[cellIdx r c size]? with
            | none => st
            | some t =>
              if mhas st.marks t.id then st
              else if st.rowNeed r t.char > 0 ∧ targetAt secrets r c ≠ some t.char then
                { st with
                    marks := mset st.marks t.id .o
                    rowNeed := updAt st.rowNeed r (decNeed (st.rowNeed r) t.char) }
              else st)
          st)
    st

/-- Pass 3 (`// pass 3: column yellows (correct column, wrong row)`),
scanned column-major. -/
def pass3 (board : List Tile) (size : Nat) (secrets : List (List Char))
    (st : MarkSt) : MarkSt :=
  (List.range size).foldl
    (fun st c =>
      (List.range size).foldl
        (fun st r =>
          match board[cellIdx r c size]? with
          | none => st
          | some t =>
            if mhas st.marks t.id then st
            else if st.colNeed c t.char > 0 ∧ targetAt secrets r c ≠ some t.char then
              { st with
                  marks := mset st.marks t.id .y
                  colNeed := updAt st.colNeed c (decNeed (st.colNeed c) t.char) }
            else st)
        st)
    st

/-- Pass 4 (`// pass 4: the rest are gray`). -/
def pass4 (board : List Tile) (size : Nat) (st : MarkSt) : MarkSt :=
  (List.range (size * size)).foldl
    (fun st i =>
      match board[i]? with
      | none => st
      | some t =>
        if mhas st.marks t.id then st
        else { st with marks := mset st.marks t.id .x })
    st

/-- `computeMarks(board, size, secrets, locked)`. -/
def computeMarks (board : List Tile) (size : Nat) (secrets : List (List Char))
    (locked : List Nat) : Marks :=
  let st0 : MarkSt :=
    { marks := []
      rowNeed := mkRowNeed secrets size
      colNeed := mkColNeed secrets size }
  (pass4 board size
    (pass3 board size secrets
      (pass2 board size secrets locked
        (pass1 board size secrets st0)))).marks

/-- `newlyGreenIDs(prev, next, already)`: ids that are green in `next`,
were not green in `prev` and were never credited, in the iteration
(= insertion) order of `next`. -/
def newlyGreenIDs (prev next : Marks) (already : List Nat) : List Nat :=
  next.foldl
    (fun gained p =>
      if p.2 = Hint.g ∧ mlookup prev p.1 ≠ some Hint.g ∧ p.1 ∉ already then
        gained ++ [p.1]
      else gained)
    []

/-! ## The mark engine as worded by the specification

`specMarks` is written from the specification's description of the
algorithm ("four ordered passes with priority green > orange > yellow >
gray", duplicate handling via remaining per-row and per-column need
counters): it assigns to every tile id at most one hint, kept as a total
assignment `Nat → Option Hint`; a tile is green iff its character equals
the target character at its cell, each green decrementing its row's and
column's remaining-need counter; among the remaining tiles of unlocked
rows, scanned row by row, a tile is orange iff the remaining row need of
its character is positive and the target at its column differs; among the
still-unmarked tiles, scanned column-major, a tile is yellow iff the
remaining column need of its character is positive and the target at its
cell differs; every other tile is gray. -/

/-- The specification-side assignment: one optional hint per tile id. -/
abbrev HintMap := Nat → Option Hint

/-- Give a tile id its (unique) hint. -/
def assignHint (f : HintMap) (k : Nat) (h : Hint) : HintMap :=
  fun j => if j = k then some h else f j

/-- Specification state: the per-tile hints and the remaining need
counters. -/
structure SpecSt where
  hints : HintMap
  rowNeed : Nat → Need
  colNeed : Nat → Need

/-- Spec pass "a tile is green iff its character equals the target
character at its cell, decrementing that row's and column's counters". -/
def specGreens (board : List Tile) (size : Nat) (secrets : List (List Char))
    (st : SpecSt) : SpecSt :=
  (List.range (size * size)).foldl
    (fun st i =>
      match board[i]? with
      | none => st
      | some t =>
        let r := i / size
        let c := i % size
        if targetAt secrets r c = some t.char then
          { hints := assignHint st.hints t.id .g
            rowNeed := updAt st.rowNeed r (decNeed (st.rowNeed r) t.char)
            colNeed := updAt st.colNeed c (decNeed (st.colNeed c) t.char) }
        else st)
    st

/-- Spec pass "among the remaining tiles of unlocked rows, scanned row by
row, a tile is orange iff the remaining row-need count for its character
is positive and the target at its column differs". -/
def specOranges (board : List Tile) (size : Nat) (secrets : List (List Char))
    (locked : List Nat) (st : SpecSt) : SpecSt :=
  (List.range size).foldl
    (fun st r =>
      if r ∈ locked then st
      else
        (List.range size).foldl
          (fun st c =>
            match board[cellIdx r c size]? with
            | none => st
            | some t =>
              if (st.hints t.id).isSome then st
              else if st.rowNeed r t.char > 0 ∧ targetAt secrets r c ≠ some t.char then
                { st with
                    hints := assignHint st.hints t.id .o
                    rowNeed := updAt st.rowNeed r (decNeed (st.rowNeed r) t.char) }
              else st)
          st)
    st

/-- Spec pass "among still-unmarked tiles, scanned column-major, a tile is
yellow iff the remaining column-need count for its character is positive
and the target at its cell differs". -/
def specYellows (board : List Tile) (size : Nat) (secrets : List (List Char))
    (st : SpecSt) : SpecSt :=
  (List.range size).foldl
    (fun st c =>
      (List.range size).foldl
        (fun st r =>
          match board[cellIdx r c size]? with
          | none => st
          | some t =>
            if (st.hints t.id).isSome then st
            else if st.colNeed c t.char > 0 ∧ targetAt secrets r c ≠ some t.char then
              { st with
                  hints := assignHint st.hints t.id .y
                  colNeed := updAt st.colNeed c (decNeed (st.colNeed c) t.char) }
            else st)
        st)
    st

/-- Spec pass "every other tile is gray". -/
def specGrays (board : List Tile) (size : Nat) (st : SpecSt) : SpecSt :=
  (List.range (size * size)).foldl
    (fun st i =>
      match board[i]? with
      | none => st
      | some t =>
        if (st.hints t.id).isSome then st
        else { st with hints := assignHint st.hints t.id .x })
    st

/-- The tile-hint assignment described by the specification. -/
def specMarks (board : List Tile) (size : Nat) (secrets : List (List Char))
    (locked : List Nat) : HintMap :=
  let st0 : SpecSt :=
    { hints := fun _ => none
      rowNeed := mkRowNeed secrets size
      colNeed := mkColNeed secrets size }
  (specGrays board size
    (specYellows board size secrets
      (specOranges board size secrets locked
        (specGreens board size secrets st0)))).hints

/-! ## The session state machine (the `App` component)

The state gathers the `useState`/`useRef` cells of the component that
carry puzzle logic (presentation-only state — selection, drag, FLIP
offsets, intro/overlay visibility, the score-flash widget — is outside
the model, as is `celebrateRow`, which only drives the bounce animation).
The random stream lives in the state because `Math.random()` is global:
every generation continues the same stream. -/

/-- Scoring constants of the source, in half-points.

Every score constant of the source (`100`, `1.5`, `2`, `5`, `5·size`) is
an integer multiple of `1/2`, and every score the meter can hold is a sum
of such constants, so IEEE double arithmetic in the source is exact and
the meter is faithfully represented by twice its value as an integer:
`SCORE_START = 200` half-points is the source's `100`, `DECAY_PER_SEC =
3` is `1.5`, and so on.  Comparisons, `Math.max(0,·)` and
`Math.min(cap,·)` commute with the doubling. -/
def SCORE_START : Int := 200
def SCORE_CAP : Int := 200
def DECAY_PER_SEC : Int := 3
def MOVE_PENALTY : Int := 4
def GREEN_BONUS : Int := 10
def ROW_SOLVED_BONUS_PER_SIZE : Int := 10

/-- `Math.max(0, x)`. -/
def clampLow (x : Int) : Int := if x < 0 then 0 else x

/-- `Math.min(SCORE_CAP, x)`. -/
def clampHigh (x : Int) : Int := if SCORE_CAP < x then SCORE_CAP else x

/-- The session state. -/
structure GState where
  size : Nat
  secrets : List (List Char)   -- `rowSecrets`, one word per row
  board : List Tile
  lockedRows : List Nat        -- the `Set<number>`, in insertion order
  moves : Nat
  seconds : Nat
  running : Bool
  won : Bool
  lost : Bool
  rowCleared : Option Nat
  score : Int          -- in half-points, see `SCORE_START`
  rewardedGreen : List Nat     -- the `Set<number>` ref, in insertion order
  rng : Rng

/-- `new Set(prev).add(r)` on the insertion-ordered list model. -/
def insertNew (l : List Nat) (r : Nat) : List Nat :=
  if r ∈ l then l else l ++ [r]

/-- `function isRowLocked(r) { return lockedRows.has(r) || r === rowCleared }` -/
def isRowLocked (σ : GState) (r : Nat) : Bool :=
  r ∈ σ.lockedRows || σ.rowCleared == some r

/-- `function canSwapIndices(a, b)`. -/
def canSwapIndices (σ : GState) (a b : Nat) : Bool :=
  if a == b then false
  else !(isRowLocked σ (rowOf a σ.size) || isRowLocked σ (rowOf b σ.size))

/-- The condition of the row-cleared detector for row `r`:
`secret && rowString(board, size, r) === secret` (the truthiness test
makes an empty secret never match). -/
def rowMatches (σ : GState) (r : Nat) : Bool :=
  match σ.secrets[r]? with
  | some w => !w.isEmpty && rowString σ.board σ.size r == w
  | none => false

/-- The `// Out of time` effect (source order: first of the synchronous
checks): `if (!won && score <= 0) { setLost(true); setRunning(false) }`.
Conditions read the committed state `σ`, writes go to `cur`. -/
def lossCheck (σ cur : GState) : GState :=
  if !σ.won && decide (σ.score ≤ 0) then { cur with lost := true, running := false }
  else cur

/-- The `// Row-cleared detection (any order)` effect: the first
non-locked row whose live letters equal its target word is stored in
`rowCleared` and the clock pauses. -/
def rowClearDetect (σ cur : GState) : GState :=
  if σ.won || σ.lost then cur
  else
    match (List.range σ.size).find? (fun r => !(r ∈ σ.lockedRows) && rowMatches σ r) with
    | some r => { cur with rowCleared := some r, running := false }
    | none => cur

/-- The win-check effect: `if (lockedRows.size === size && size > 0)
{ setWon(true); setRunning(false) }`. -/
def winCheck (σ cur : GState) : GState :=
  if σ.lockedRows.length == σ.size && decide (0 < σ.size) then
    { cur with won := true, running := false }
  else cur

/-- One flush of the synchronous effects, in their declaration order in
the component.  All three read the state committed by the triggering
event; their writes touch disjoint flags (all agree on `running :=
false`), so the sequential merge is their simultaneous application, and a
second flush can never enable a check the first one did not (the writes
only turn the guards off) — the cascade settles after one pass. -/
def settle (σ : GState) : GState :=
  winCheck σ (rowClearDetect σ (lossCheck σ σ))

/-- External events: a validated swap request, the one-second decay tick,
the 650 ms celebration timeout, a restart (`startGame`). -/
inductive Event where
  | swap (a b : Nat)
  | tick
  | celeTimeout
  | restart (newSize : Nat) (pref : Option (List Char))

/-- `performSwap(a, b)` — the state changes and the credited green ids.
Guards: the click path requires the session not to be over and
`canSwapIndices(a, b)`; the indices come from rendered tiles, hence are
`< size·size`. -/
def performSwap (σ : GState) (a b : Nat) : GState × List Nat :=
  let marks := computeMarks σ.board σ.size σ.secrets σ.lockedRows
  let nextBoard := swapList σ.board a b
  let nextMarks := computeMarks nextBoard σ.size σ.secrets σ.lockedRows
  let newly := newlyGreenIDs marks nextMarks σ.rewardedGreen
  let score1 := clampLow (σ.score - MOVE_PENALTY)
  let score2 := if newly.isEmpty then score1
                else clampHigh (score1 + newly.length * GREEN_BONUS)
  ({ σ with
      board := nextBoard
      running := true
      moves := σ.moves + 1
      score := score2
      rewardedGreen := newly.foldl insertNew σ.rewardedGreen },
   newly)

/-- `startGame(newSize, maybeWord?)`. -/
def startGame (σ : GState) (newSize : Nat) (pref : Option (List Char)) : GState :=
  let (words, board, rng') := makeCampaignBoard newSize pref σ.rng
  { size := newSize
    secrets := words
    board := board
    lockedRows := []
    moves := 0
    seconds := 0
    running := true
    won := false
    lost := false
    rowCleared := none
    score := SCORE_START
    rewardedGreen := []
    rng := rng' }

/-- One event: the guarded state update followed by the effect flush.
`none` means the event cannot fire in `σ` (an illegal swap is ignored,
the decay interval only exists while `running && !won && !lost`, the
celebration timer only exists while `rowCleared != null`).  The second
component is the list of tile ids credited the green bonus by the event. -/
def step (σ : GState) : Event → Option (GState × List Nat)
  | .swap a b =>
    if !σ.won && !σ.lost && canSwapIndices σ a b
        && decide (a < σ.size * σ.size) && decide (b < σ.size * σ.size) then
      let (σ', newly) := performSwap σ a b
      some (settle σ', newly)
    else none
  | .tick =>
    if σ.running && !σ.won && !σ.lost then
      some (settle { σ with
        seconds := σ.seconds + 1
        score := clampLow (σ.score - DECAY_PER_SEC) }, [])
    else none
  | .celeTimeout =>
    match σ.rowCleared with
    | some r =>
      some (settle { σ with
        lockedRows := insertNew σ.lockedRows r
        rowCleared := none
        score := clampHigh (σ.score + ROW_SOLVED_BONUS_PER_SIZE * σ.size)
        running := true }, [])
    | none => none
  | .restart newSize pref => some (settle (startGame σ newSize pref), [])

/-- Run a list of events, collecting the green-credit log. -/
def stepsLog : GState → List Event → Option (GState × List (List Nat))
  | σ, [] => some (σ, [])
  | σ, e :: es =>
    match step σ e with
    | some (σ', newly) =>
      match stepsLog σ' es with
      | some (σ'', log) => some (σ'', newly :: log)
      | none => none
    | none => none

/-- Run a list of events. -/
def steps : GState → List Event → Option GState
  | σ, [] => some σ
  | σ, e :: es =>
    match step σ e with
    | some (σ', _) => steps σ' es
    | none => none

/-- The component's mount state (`makeCampaignBoard(5)`, clock not yet
running), after the mount effect flush. -/
def mount (g : Nat → Nat) : GState :=
  let (words, board, rng') := makeCampaignBoard 5 none ⟨g, 0⟩
  settle
    { size := 5
      secrets := words
      board := board
      lockedRows := []
      moves := 0
      seconds := 0
      running := false
      won := false
      lost := false
      rowCleared := none
      score := SCORE_START
      rewardedGreen := []
      rng := rng' }

/-- A state of some session: reachable from a mount by a sequence of
events, for some random stream. -/
def Reachable (σ : GState) : Prop :=
  ∃ (g : Nat → Nat) (es : List Event), steps (mount g) es = some σ


/-! ## A concrete session (the counterexample trace)

The random stream `cexG` drives the mount generation so that the retry
loop succeeds after one extra pass, leaving a board that is the solved
layout with the cells `0↔5` (rows 0/1), `11↔16` (rows 2/3) and `20↔21`
(row 4) exchanged.  The first 48 draws (Fisher–Yates of the 49-word
5-pool) and the 300 base shuffle steps all draw `0`, so the base shuffle
toggles cells `0↔5` an even number of times — the board is still solved
and the retry pass runs; its 25 steps net-swap the three pairs above
(draws `0/0` toggle `0↔5`, `11/1` toggle `11↔16`, `20/1` toggle `20↔21`).

From the mounted state a session is played out that exhibits the
loss/win interleavings of claims C3, C4 and C8: the player re-solves
rows 0–3 (crediting their moved tiles), toggles row 4's tiles until all
of them have been credited the green bonus, lets the meter decay to one
point, and then completes the last row with a swap whose move penalty
zeroes the meter; the loss effect fires in that same flush, the pending
celebration still locks the row, and the win effect then also fires. -/

/-- The random stream of the counterexample session (see section
comment). -/
def cexG : Nat → Nat := fun k =>
  if 670 ≤ k && k < 692 then (if (k - 670) % 2 = 0 then 11 else 1)
  else if 692 ≤ k && k < 698 then (if (k - 692) % 2 = 0 then 20 else 1)
  else 0

/-- The words `chooseCampaignWords 5` picks from `cexG`. -/
def cexWords : List (List Char) :=
  ["APPLE".toList, "ROUND".toList, "SHARP".toList, "SWEET".toList, "QUICK".toList]

/-- The solved layout of `cexWords` (= `initialBoard 5 cexWords`). -/
def cexBoard0 : List Tile :=
  [Tile.mk 1 'A', Tile.mk 2 'P', Tile.mk 3 'P', Tile.mk 4 'L', Tile.mk 5 'E',
   Tile.mk 6 'R', Tile.mk 7 'O', Tile.mk 8 'U', Tile.mk 9 'N', Tile.mk 10 'D',
   Tile.mk 11 'S', Tile.mk 12 'H', Tile.mk 13 'A', Tile.mk 14 'R', Tile.mk 15 'P',
   Tile.mk 16 'S', Tile.mk 17 'W', Tile.mk 18 'E', Tile.mk 19 'E', Tile.mk 20 'T',
   Tile.mk 21 'Q', Tile.mk 22 'U', Tile.mk 23 'I', Tile.mk 24 'C', Tile.mk 25 'K']

/-- The generated (mount) board: the solved layout with `0↔5`, `11↔16`
and `20↔21` exchanged, so no row is solved. -/
def cexBoardM : List Tile :=
  [Tile.mk 6 'R', Tile.mk 2 'P', Tile.mk 3 'P', Tile.mk 4 'L', Tile.mk 5 'E',
   Tile.mk 1 'A', Tile.mk 7 'O', Tile.mk 8 'U', Tile.mk 9 'N', Tile.mk 10 'D',
   Tile.mk 11 'S', Tile.mk 17 'W', Tile.mk 13 'A', Tile.mk 14 'R', Tile.mk 15 'P',
   Tile.mk 16 'S', Tile.mk 12 'H', Tile.mk 18 'E', Tile.mk 19 'E', Tile.mk 20 'T',
   Tile.mk 22 'U', Tile.mk 21 'Q', Tile.mk 23 'I', Tile.mk 24 'C', Tile.mk 25 'K']

/-- The mounted session of the counterexample trace. -/
def cexMount : GState :=
  { size := 5, secrets := cexWords, board := cexBoardM, lockedRows := [],
    moves := 0, seconds := 0, running := false, won := false, lost := false,
    rowCleared := none, score := 200, rewardedGreen := [], rng := ⟨cexG, 698⟩ }

/-- Session state after segment 1 of the counterexample trace. -/
def cexT1 : GState :=
  { size := 5, secrets := cexWords, board := [Tile.mk 1 'A', Tile.mk 2 'P', Tile.mk 3 'P', Tile.mk 4 'L', Tile.mk 5 'E', Tile.mk 6 'R', Tile.mk 7 'O', Tile.mk 8 'U', Tile.mk 9 'N', Tile.mk 10 'D', Tile.mk 11 'S', Tile.mk 17 'W', Tile.mk 13 'A', Tile.mk 14 'R', Tile.mk 15 'P', Tile.mk 16 'S', Tile.mk 12 'H', Tile.mk 18 'E', Tile.mk 19 'E', Tile.mk 20 'T', Tile.mk 22 'U', Tile.mk 21 'Q', Tile.mk 23 'I', Tile.mk 24 'C', Tile.mk 25 'K'],
    lockedRows := [], moves := 1, seconds := 0, running := false, won := false, lost := false,
    rowCleared := some 0, score := 200, rewardedGreen := [1, 6], rng := ⟨cexG, 698⟩ }
/-- Session state after segment 2 of the counterexample trace. -/
def cexT2 : GState :=
  { size := 5, secrets := cexWords, board := [Tile.mk 1 'A', Tile.mk 2 'P', Tile.mk 3 'P', Tile.mk 4 'L', Tile.mk 5 'E', Tile.mk 7 'O', Tile.mk 6 'R', Tile.mk 8 'U', Tile.mk 9 'N', Tile.mk 10 'D', Tile.mk 11 'S', Tile.mk 17 'W', Tile.mk 13 'A', Tile.mk 14 'R', Tile.mk 15 'P', Tile.mk 16 'S', Tile.mk 12 'H', Tile.mk 18 'E', Tile.mk 19 'E', Tile.mk 20 'T', Tile.mk 22 'U', Tile.mk 21 'Q', Tile.mk 23 'I', Tile.mk 24 'C', Tile.mk 25 'K'],
    lockedRows := [], moves := 2, seconds := 0, running := false, won := false, lost := false,
    rowCleared := some 0, score := 196, rewardedGreen := [1, 6], rng := ⟨cexG, 698⟩ }
/-- Session state after segment 3 of the counterexample trace. -/
def cexT3 : GState :=
  { size := 5, secrets := cexWords, board := [Tile.mk 1 'A', Tile.mk 2 'P', Tile.mk 3 'P', Tile.mk 4 'L', Tile.mk 5 'E', Tile.mk 6 'R', Tile.mk 7 'O', Tile.mk 8 'U', Tile.mk 9 'N', Tile.mk 10 'D', Tile.mk 11 'S', Tile.mk 17 'W', Tile.mk 13 'A', Tile.mk 14 'R', Tile.mk 15 'P', Tile.mk 16 'S', Tile.mk 12 'H', Tile.mk 18 'E', Tile.mk 19 'E', Tile.mk 20 'T', Tile.mk 22 'U', Tile.mk 21 'Q', Tile.mk 23 'I', Tile.mk 24 'C', Tile.mk 25 'K'],
    lockedRows := [], moves := 3, seconds := 0, running := false, won := false, lost := false,
    rowCleared := some 0, score := 200, rewardedGreen := [1, 6, 7], rng := ⟨cexG, 698⟩ }
/-- Session state after segment 4 of the counterexample trace. -/
def cexT4 : GState :=
  { size := 5, secrets := cexWords, board := [Tile.mk 1 'A', Tile.mk 2 'P', Tile.mk 3 'P', Tile.mk 4 'L', Tile.mk 5 'E', Tile.mk 6 'R', Tile.mk 7 'O', Tile.mk 8 'U', Tile.mk 9 'N', Tile.mk 10 'D', Tile.mk 11 'S', Tile.mk 17 'W', Tile.mk 13 'A', Tile.mk 14 'R', Tile.mk 15 'P', Tile.mk 16 'S', Tile.mk 12 'H', Tile.mk 18 'E', Tile.mk 19 'E', Tile.mk 20 'T', Tile.mk 22 'U', Tile.mk 21 'Q', Tile.mk 23 'I', Tile.mk 24 'C', Tile.mk 25 'K'],
    lockedRows := [0, 1], moves := 3, seconds := 0, running := true, won := false, lost := false,
    rowCleared := none, score := 200, rewardedGreen := [1, 6, 7], rng := ⟨cexG, 698⟩ }
/-- Session state after segment 5 of the counterexample trace. -/
def cexT5 : GState :=
  { size := 5, secrets := cexWords, board := [Tile.mk 1 'A', Tile.mk 2 'P', Tile.mk 3 'P', Tile.mk 4 'L', Tile.mk 5 'E', Tile.mk 6 'R', Tile.mk 7 'O', Tile.mk 8 'U', Tile.mk 9 'N', Tile.mk 10 'D', Tile.mk 11 'S', Tile.mk 12 'H', Tile.mk 13 'A', Tile.mk 14 'R', Tile.mk 15 'P', Tile.mk 16 'S', Tile.mk 17 'W', Tile.mk 18 'E', Tile.mk 19 'E', Tile.mk 20 'T', Tile.mk 22 'U', Tile.mk 21 'Q', Tile.mk 23 'I', Tile.mk 24 'C', Tile.mk 25 'K'],
    lockedRows := [0, 1], moves := 4, seconds := 0, running := false, won := false, lost := false,
    rowCleared := some 2, score := 200, rewardedGreen := [1, 6, 7, 12, 17], rng := ⟨cexG, 698⟩ }
/-- Session state after segment 6 of the counterexample trace. -/
def cexT6 : GState :=
  { size := 5, secrets := cexWords, board := [Tile.mk 1 'A', Tile.mk 2 'P', Tile.mk 3 'P', Tile.mk 4 'L', Tile.mk 5 'E', Tile.mk 6 'R', Tile.mk 7 'O', Tile.mk 8 'U', Tile.mk 9 'N', Tile.mk 10 'D', Tile.mk 11 'S', Tile.mk 12 'H', Tile.mk 13 'A', Tile.mk 14 'R', Tile.mk 15 'P', Tile.mk 16 'S', Tile.mk 17 'W', Tile.mk 18 'E', Tile.mk 19 'E', Tile.mk 20 'T', Tile.mk 22 'U', Tile.mk 21 'Q', Tile.mk 23 'I', Tile.mk 24 'C', Tile.mk 25 'K'],
    lockedRows := [0, 1, 2, 3], moves := 4, seconds := 0, running := true, won := false, lost := false,
    rowCleared := none, score := 200, rewardedGreen := [1, 6, 7, 12, 17], rng := ⟨cexG, 698⟩ }
/-- Session state after segment 7 of the counterexample trace. -/
def cexT7 : GState :=
  { size := 5, secrets := cexWords, board := [Tile.mk 1 'A', Tile.mk 2 'P', Tile.mk 3 'P', Tile.mk 4 'L', Tile.mk 5 'E', Tile.mk 6 'R', Tile.mk 7 'O', Tile.mk 8 'U', Tile.mk 9 'N', Tile.mk 10 'D', Tile.mk 11 'S', Tile.mk 12 'H', Tile.mk 13 'A', Tile.mk 14 'R', Tile.mk 15 'P', Tile.mk 16 'S', Tile.mk 17 'W', Tile.mk 18 'E', Tile.mk 19 'E', Tile.mk 20 'T', Tile.mk 22 'U', Tile.mk 21 'Q', Tile.mk 24 'C', Tile.mk 23 'I', Tile.mk 25 'K'],
    lockedRows := [0, 1, 2, 3], moves := 5, seconds := 0, running := true, won := false, lost := false,
    rowCleared := none, score := 196, rewardedGreen := [1, 6, 7, 12, 17], rng := ⟨cexG, 698⟩ }
/-- Session state after segment 8 of the counterexample trace. -/
def cexT8 : GState :=
  { size := 5, secrets := cexWords, board := [Tile.mk 1 'A', Tile.mk 2 'P', Tile.mk 3 'P', Tile.mk 4 'L', Tile.mk 5 'E', Tile.mk 6 'R', Tile.mk 7 'O', Tile.mk 8 'U', Tile.mk 9 'N', Tile.mk 10 'D', Tile.mk 11 'S', Tile.mk 12 'H', Tile.mk 13 'A', Tile.mk 14 'R', Tile.mk 15 'P', Tile.mk 16 'S', Tile.mk 17 'W', Tile.mk 18 'E', Tile.mk 19 'E', Tile.mk 20 'T', Tile.mk 21 'Q', Tile.mk 22 'U', Tile.mk 24 'C', Tile.mk 23 'I', Tile.mk 25 'K'],
    lockedRows := [0, 1, 2, 3], moves := 6, seconds := 0, running := true, won := false, lost := false,
    rowCleared := none, score := 200, rewardedGreen := [1, 6, 7, 12, 17, 21, 22], rng := ⟨cexG, 698⟩ }
/-- Session state after segment 9 of the counterexample trace. -/
def cexT9 : GState :=
  { size := 5, secrets := cexWords, board := [Tile.mk 1 'A', Tile.mk 2 'P', Tile.mk 3 'P', Tile.mk 4 'L', Tile.mk 5 'E', Tile.mk 6 'R', Tile.mk 7 'O', Tile.mk 8 'U', Tile.mk 9 'N', Tile.mk 10 'D', Tile.mk 11 'S', Tile.mk 12 'H', Tile.mk 13 'A', Tile.mk 14 'R', Tile.mk 15 'P', Tile.mk 16 'S', Tile.mk 17 'W', Tile.mk 18 'E', Tile.mk 19 'E', Tile.mk 20 'T', Tile.mk 22 'U', Tile.mk 21 'Q', Tile.mk 24 'C', Tile.mk 23 'I', Tile.mk 25 'K'],
    lockedRows := [0, 1, 2, 3], moves := 7, seconds := 0, running := true, won := false, lost := false,
    rowCleared := none, score := 196, rewardedGreen := [1, 6, 7, 12, 17, 21, 22], rng := ⟨cexG, 698⟩ }
/-- Session state after segment 10 of the counterexample trace. -/
def cexT10 : GState :=
  { size := 5, secrets := cexWords, board := [Tile.mk 1 'A', Tile.mk 2 'P', Tile.mk 3 'P', Tile.mk 4 'L', Tile.mk 5 'E', Tile.mk 6 'R', Tile.mk 7 'O', Tile.mk 8 'U', Tile.mk 9 'N', Tile.mk 10 'D', Tile.mk 11 'S', Tile.mk 12 'H', Tile.mk 13 'A', Tile.mk 14 'R', Tile.mk 15 'P', Tile.mk 16 'S', Tile.mk 17 'W', Tile.mk 18 'E', Tile.mk 19 'E', Tile.mk 20 'T', Tile.mk 22 'U', Tile.mk 21 'Q', Tile.mk 23 'I', Tile.mk 24 'C', Tile.mk 25 'K'],
    lockedRows := [0, 1, 2, 3], moves := 8, seconds := 0, running := true, won := false, lost := false,
    rowCleared := none, score := 200, rewardedGreen := [1, 6, 7, 12, 17, 21, 22, 23, 24], rng := ⟨cexG, 698⟩ }
/-- Session state after segment 11 of the counterexample trace. -/
def cexT11 : GState :=
  { size := 5, secrets := cexWords, board := [Tile.mk 1 'A', Tile.mk 2 'P', Tile.mk 3 'P', Tile.mk 4 'L', Tile.mk 5 'E', Tile.mk 6 'R', Tile.mk 7 'O', Tile.mk 8 'U', Tile.mk 9 'N', Tile.mk 10 'D', Tile.mk 11 'S', Tile.mk 12 'H', Tile.mk 13 'A', Tile.mk 14 'R', Tile.mk 15 'P', Tile.mk 16 'S', Tile.mk 17 'W', Tile.mk 18 'E', Tile.mk 19 'E', Tile.mk 20 'T', Tile.mk 22 'U', Tile.mk 21 'Q', Tile.mk 23 'I', Tile.mk 24 'C', Tile.mk 25 'K'],
    lockedRows := [0, 1, 2, 3], moves := 8, seconds := 66, running := true, won := false, lost := false,
    rowCleared := none, score := 2, rewardedGreen := [1, 6, 7, 12, 17, 21, 22, 23, 24], rng := ⟨cexG, 698⟩ }
/-- Session state after segment 12 of the counterexample trace. -/
def cexT12 : GState :=
  { size := 5, secrets := cexWords, board := [Tile.mk 1 'A', Tile.mk 2 'P', Tile.mk 3 'P', Tile.mk 4 'L', Tile.mk 5 'E', Tile.mk 6 'R', Tile.mk 7 'O', Tile.mk 8 'U', Tile.mk 9 'N', Tile.mk 10 'D', Tile.mk 11 'S', Tile.mk 12 'H', Tile.mk 13 'A', Tile.mk 14 'R', Tile.mk 15 'P', Tile.mk 16 'S', Tile.mk 17 'W', Tile.mk 18 'E', Tile.mk 19 'E', Tile.mk 20 'T', Tile.mk 21 'Q', Tile.mk 22 'U', Tile.mk 23 'I', Tile.mk 24 'C', Tile.mk 25 'K'],
    lockedRows := [0, 1, 2, 3], moves := 9, seconds := 66, running := false, won := false, lost := true,
    rowCleared := some 4, score := 0, rewardedGreen := [1, 6, 7, 12, 17, 21, 22, 23, 24], rng := ⟨cexG, 698⟩ }
/-- Session state after segment 13 of the counterexample trace. -/
def cexT13 : GState :=
  { size := 5, secrets := cexWords, board := [Tile.mk 1 'A', Tile.mk 2 'P', Tile.mk 3 'P', Tile.mk 4 'L', Tile.mk 5 'E', Tile.mk 6 'R', Tile.mk 7 'O', Tile.mk 8 'U', Tile.mk 9 'N', Tile.mk 10 'D', Tile.mk 11 'S', Tile.mk 12 'H', Tile.mk 13 'A', Tile.mk 14 'R', Tile.mk 15 'P', Tile.mk 16 'S', Tile.mk 17 'W', Tile.mk 18 'E', Tile.mk 19 'E', Tile.mk 20 'T', Tile.mk 21 'Q', Tile.mk 22 'U', Tile.mk 23 'I', Tile.mk 24 'C', Tile.mk 25 'K'],
    lockedRows := [0, 1, 2, 3, 4], moves := 9, seconds := 66, running := false, won := true, lost := true,
    rowCleared := none, score := 50, rewardedGreen := [1, 6, 7, 12, 17, 21, 22, 23, 24], rng := ⟨cexG, 698⟩ }

/-- The all-zero random stream (`Math.random()` pinned to `0`). -/
def zeroStream : Nat → Nat := fun _ => 0

/-- The words `chooseCampaignWords 4` picks from the all-zero stream;
`"BREAD"` is the five-letter entry the source ships in the 4-letter
pool. -/
def z4Words : List (List Char) :=
  ["CODE".toList, "CORN".toList, "BREAD".toList, "MILK".toList]

/-- The solved truncated layout of `z4Words` (= `initialBoard 4 z4Words`):
`initialBoard` reads 4 characters per row, so row 2 holds only `BREA` and
the `'D'` of `BREAD` never reaches the board. -/
def z4Board0 : List Tile :=
  [Tile.mk 1 'C', Tile.mk 2 'O', Tile.mk 3 'D', Tile.mk 4 'E',
   Tile.mk 5 'C', Tile.mk 6 'O', Tile.mk 7 'R', Tile.mk 8 'N',
   Tile.mk 9 'B', Tile.mk 10 'R', Tile.mk 11 'E', Tile.mk 12 'A',
   Tile.mk 13 'M', Tile.mk 14 'I', Tile.mk 15 'L', Tile.mk 16 'K']

/-- `cexBoard0` after one odd 25-step zero-stream pass: every step swaps
cells 0 and 5, so only tiles 1 and 6 are exchanged. -/
def z5BoardSw : List Tile :=
  [Tile.mk 6 'R', Tile.mk 2 'P', Tile.mk 3 'P', Tile.mk 4 'L', Tile.mk 5 'E',
   Tile.mk 1 'A', Tile.mk 7 'O', Tile.mk 8 'U', Tile.mk 9 'N', Tile.mk 10 'D',
   Tile.mk 11 'S', Tile.mk 12 'H', Tile.mk 13 'A', Tile.mk 14 'R', Tile.mk 15 'P',
   Tile.mk 16 'S', Tile.mk 17 'W', Tile.mk 18 'E', Tile.mk 19 'E', Tile.mk 20 'T',
   Tile.mk 21 'Q', Tile.mk 22 'U', Tile.mk 23 'I', Tile.mk 24 'C', Tile.mk 25 'K']

/-- The mount of the all-zero stream: the zero-stream shuffle is a parity
toggle of cells 0 and 5, the retry budget is exhausted after an even
number of passes, and the fully solved board ships; the row-cleared effect
fires immediately. -/
def z5Mount : GState :=
  { size := 5, secrets := cexWords, board := cexBoard0,
    lockedRows := [], moves := 0, seconds := 0, running := false,
    won := false, lost := false, rowCleared := some 0, score := 200,
    rewardedGreen := [], rng := ⟨zeroStream, 3148⟩ }

/-- `z4Board0` after one zero-stream step: every zero-stream step at
size 4 swaps cells 0 and 4, so tiles 1 and 5 are exchanged. -/
def z4BoardSw : List Tile :=
  [Tile.mk 5 'C', Tile.mk 2 'O', Tile.mk 3 'D', Tile.mk 4 'E',
   Tile.mk 1 'C', Tile.mk 6 'O', Tile.mk 7 'R', Tile.mk 8 'N',
   Tile.mk 9 'B', Tile.mk 10 'R', Tile.mk 11 'E', Tile.mk 12 'A',
   Tile.mk 13 'M', Tile.mk 14 'I', Tile.mk 15 'L', Tile.mk 16 'K']

/-- The size-4 session reached by restarting `z5Mount` at size 4: the
board misses the `'D'` of `BREAD` and ships with row 0 already solved. -/
def z4State : GState :=
  { size := 4, secrets := z4Words, board := z4Board0,
    lockedRows := [], moves := 0, seconds := 0, running := false,
    won := false, lost := false, rowCleared := some 0, score := 200,
    rewardedGreen := [], rng := ⟨zeroStream, 5371⟩ }

/-- Coupling of the source-side mark state with the specification-side
state: same per-tile assignment, same remaining need counters. -/
abbrev MarksRel (st : MarkSt) (sp : SpecSt) : Prop :=
  (∀ k, mlookup st.marks k = sp.hints k) ∧
  st.rowNeed = sp.rowNeed ∧ st.colNeed = sp.colNeed

/-- Shuffling `m + n` steps is shuffling `m`, then `n` more. -/
theorem shuffleByAdjSwaps_add (size m n : Nat) (b : List Tile) (rng : Rng) :
    shuffleByAdjSwaps size (m + n) b rng =
      shuffleByAdjSwaps size n (shuffleByAdjSwaps size m b rng).1
        (shuffleByAdjSwaps size m b rng).2 := by
  induction m generalizing b rng with
  | zero => simp [shuffleByAdjSwaps]
  | succ m ih =>
    rw [Nat.succ_add]
    simp only [shuffleByAdjSwaps]
    exact ih _ _

/-- Word choice under `cexG`. -/
theorem cex_words_eq :
    chooseCampaignWords 5 none ⟨cexG, 0⟩ = (cexWords, ⟨cexG, 48⟩) := by rfl

/-- The solved layout under `cexG`. -/
theorem cex_init_eq : initialBoard 5 cexWords = cexBoard0 := by rfl

/-- Base shuffle, first 100 steps (an even number of `0↔5` toggles). -/
theorem cex_sh1 :
    shuffleByAdjSwaps 5 100 cexBoard0 ⟨cexG, 48⟩ = (cexBoard0, ⟨cexG, 248⟩) := by rfl

/-- Base shuffle, next 100 steps. -/
theorem cex_sh2 :
    shuffleByAdjSwaps 5 100 cexBoard0 ⟨cexG, 248⟩ = (cexBoard0, ⟨cexG, 448⟩) := by rfl

/-- Base shuffle, last 100 steps. -/
theorem cex_sh3 :
    shuffleByAdjSwaps 5 100 cexBoard0 ⟨cexG, 448⟩ = (cexBoard0, ⟨cexG, 648⟩) := by rfl

/-- The retry loop runs one extra 25-step pass and succeeds. -/
theorem cex_retry :
    retryLoop cexWords 5 50 cexBoard0 ⟨cexG, 648⟩ = (cexBoardM, ⟨cexG, 698⟩, 1) := by rfl

/-- Unfolding `makeCampaignBoardAux` along known results of its stages. -/
theorem makeAux_unfold (size : Nat) (pref : Option (List Char)) (rng : Rng)
    (words : List (List Char)) (rng1 : Rng) (b1 : List Tile) (rng2 : Rng)
    (b2 : List Tile) (rng3 : Rng) (tries : Nat)
    (hw : chooseCampaignWords size pref rng = (words, rng1))
    (hs : shuffleByAdjSwaps size (max 300 (size * size * 10))
            (initialBoard size words) rng1 = (b1, rng2))
    (hr : retryLoop words size 50 b1 rng2 = (b2, rng3, tries)) :
    makeCampaignBoardAux size pref rng = (words, b2, rng3, tries) := by
  unfold makeCampaignBoardAux
  rw [hw]
  show (match shuffleByAdjSwaps size (max 300 (size * size * 10))
          (initialBoard size words) rng1 with
        | (b1, rng2) =>
          match retryLoop words size 50 b1 rng2 with
          | (b2, rng3, tries) => (words, b2, rng3, tries)) =
      (words, b2, rng3, tries)
  rw [hs]
  show (match retryLoop words size 50 b1 rng2 with
        | (b2, rng3, tries) => (words, b2, rng3, tries)) = (words, b2, rng3, tries)
  rw [hr]

/-- Unfolding `makeCampaignBoard` along a known `makeCampaignBoardAux`. -/
theorem makeBoard_unfold (size : Nat) (pref : Option (List Char)) (rng : Rng)
    (words : List (List Char)) (board : List Tile) (rng2 : Rng) (tries : Nat)
    (h : makeCampaignBoardAux size pref rng = (words, board, rng2, tries)) :
    makeCampaignBoard size pref rng = (words, board, rng2) := by
  unfold makeCampaignBoard
  rw [h]

/-- Unfolding `mount` along a known generation result. -/
theorem mount_unfold (g : Nat → Nat) (words : List (List Char))
    (board : List Tile) (rng2 : Rng)
    (h : makeCampaignBoard 5 none ⟨g, 0⟩ = (words, board, rng2)) :
    mount g = settle
      { size := 5, secrets := words, board := board, lockedRows := [],
        moves := 0, seconds := 0, running := false, won := false, lost := false,
        rowCleared := none, score := SCORE_START, rewardedGreen := [],
        rng := rng2 } := by
  unfold mount
  rw [h]

/-- The 300 base shuffle steps under `cexG`, glued from the 100-step
segments. -/
theorem cex_sh300 :
    shuffleByAdjSwaps 5 (max 300 (5 * 5 * 10)) cexBoard0 ⟨cexG, 48⟩ =
      (cexBoard0, ⟨cexG, 648⟩) := by
  have h300 : max 300 (5 * 5 * 10) = 100 + (100 + 100) := by norm_num
  rw [h300, shuffleByAdjSwaps_add, cex_sh1]
  rw [show ((cexBoard0, (⟨cexG, 248⟩ : Rng)).1) = cexBoard0 from rfl,
      show ((cexBoard0, (⟨cexG, 248⟩ : Rng)).2) = (⟨cexG, 248⟩ : Rng) from rfl,
      shuffleByAdjSwaps_add, cex_sh2]
  rw [show ((cexBoard0, (⟨cexG, 448⟩ : Rng)).1) = cexBoard0 from rfl,
      show ((cexBoard0, (⟨cexG, 448⟩ : Rng)).2) = (⟨cexG, 448⟩ : Rng) from rfl,
      cex_sh3]

/-- The full generation under `cexG`. -/
theorem cex_makeAux :
    makeCampaignBoardAux 5 none ⟨cexG, 0⟩ = (cexWords, cexBoardM, ⟨cexG, 698⟩, 1) := by
  refine makeAux_unfold 5 none _ cexWords ⟨cexG, 48⟩ cexBoard0 ⟨cexG, 648⟩
    cexBoardM ⟨cexG, 698⟩ 1 cex_words_eq ?_ cex_retry
  rw [cex_init_eq]
  exact cex_sh300

/-- The mounted state under `cexG`. -/
theorem cex_mount_eq : mount cexG = cexMount := by
  rw [mount_unfold cexG cexWords cexBoardM ⟨cexG, 698⟩
    (makeBoard_unfold 5 none ⟨cexG, 0⟩ cexWords cexBoardM ⟨cexG, 698⟩ 1 cex_makeAux)]
  rfl



/-- Segment 1 of the counterexample trace. -/
theorem cex_seg1 : steps cexMount [.swap 0 5] = some cexT1 := by rfl

/-- Segment 2 of the counterexample trace. -/
theorem cex_seg2 : steps cexT1 [.swap 5 6] = some cexT2 := by rfl

/-- Segment 3 of the counterexample trace. -/
theorem cex_seg3 : steps cexT2 [.swap 5 6] = some cexT3 := by rfl

/-- Segment 4 of the counterexample trace. -/
theorem cex_seg4 : steps cexT3 [.celeTimeout, .celeTimeout] = some cexT4 := by rfl

/-- Segment 5 of the counterexample trace. -/
theorem cex_seg5 : steps cexT4 [.swap 11 16] = some cexT5 := by rfl

/-- Segment 6 of the counterexample trace. -/
theorem cex_seg6 : steps cexT5 [.celeTimeout, .celeTimeout] = some cexT6 := by rfl

/-- Segment 7 of the counterexample trace. -/
theorem cex_seg7 : steps cexT6 [.swap 22 23] = some cexT7 := by rfl

/-- Segment 8 of the counterexample trace. -/
theorem cex_seg8 : steps cexT7 [.swap 20 21] = some cexT8 := by rfl

/-- Segment 9 of the counterexample trace. -/
theorem cex_seg9 : steps cexT8 [.swap 20 21] = some cexT9 := by rfl

/-- Segment 10 of the counterexample trace. -/
theorem cex_seg10 : steps cexT9 [.swap 22 23] = some cexT10 := by rfl

/-- Segment 11 of the counterexample trace. -/
theorem cex_seg11 : steps cexT10 (List.replicate 66 .tick) = some cexT11 := by rfl

/-- Segment 12 of the counterexample trace. -/
theorem cex_seg12 : steps cexT11 [.swap 20 21] = some cexT12 := by rfl

/-- Segment 13 of the counterexample trace. -/
theorem cex_seg13 : steps cexT12 [.celeTimeout] = some cexT13 := by rfl

/-- Appending event lists composes the runs. -/
theorem steps_append (l1 l2 : List Event) (σ : GState) :
    steps σ (l1 ++ l2) = (steps σ l1).bind (fun σ2 => steps σ2 l2) := by
  induction l1 generalizing σ with
  | nil => simp [steps]
  | cons e es ih =>
    simp only [List.cons_append, steps]
    cases step σ e with
    | none => rfl
    | some p => exact ih p.1

/-- Gluing two runs. -/
theorem steps_trans {σ σ2 σ3 : GState} {l1 l2 : List Event}
    (h1 : steps σ l1 = some σ2) (h2 : steps σ2 l2 = some σ3) :
    steps σ (l1 ++ l2) = some σ3 := by
  rw [steps_append, h1]
  exact h2


/-! ## Effect-flush characterizations

`settle` applies the three synchronous checks; these lemmas give each
field of the settled state in closed form. -/

/-- The loss effect's guard `!won && score <= 0`. -/
def lossFires (σ : GState) : Bool := !σ.won && decide (σ.score ≤ 0)

/-- The row the row-cleared detector finds, if any. -/
def detectFound (σ : GState) : Option Nat :=
  if σ.won || σ.lost then none
  else (List.range σ.size).find? (fun r => !(r ∈ σ.lockedRows) && rowMatches σ r)

/-- The win effect's guard `lockedRows.size === size && size > 0`. -/
def winFires (σ : GState) : Bool :=
  σ.lockedRows.length == σ.size && decide (0 < σ.size)

theorem settle_board (σ : GState) : (settle σ).board = σ.board := by
  unfold settle winCheck rowClearDetect lossCheck
  repeat' split
  all_goals rfl

theorem settle_secrets (σ : GState) : (settle σ).secrets = σ.secrets := by
  unfold settle winCheck rowClearDetect lossCheck
  repeat' split
  all_goals rfl

theorem settle_size (σ : GState) : (settle σ).size = σ.size := by
  unfold settle winCheck rowClearDetect lossCheck
  repeat' split
  all_goals rfl

theorem settle_score (σ : GState) : (settle σ).score = σ.score := by
  unfold settle winCheck rowClearDetect lossCheck
  repeat' split
  all_goals rfl

theorem settle_lockedRows (σ : GState) : (settle σ).lockedRows = σ.lockedRows := by
  unfold settle winCheck rowClearDetect lossCheck
  repeat' split
  all_goals rfl

theorem settle_rewardedGreen (σ : GState) :
    (settle σ).rewardedGreen = σ.rewardedGreen := by
  unfold settle winCheck rowClearDetect lossCheck
  repeat' split
  all_goals rfl

theorem settle_rng (σ : GState) : (settle σ).rng = σ.rng := by
  unfold settle winCheck rowClearDetect lossCheck
  repeat' split
  all_goals rfl

theorem settle_lost (σ : GState) :
    (settle σ).lost = (σ.lost || lossFires σ) := by
  unfold settle winCheck rowClearDetect lossCheck lossFires
  repeat' split
  all_goals simp_all

theorem settle_won (σ : GState) :
    (settle σ).won = (σ.won || winFires σ) := by
  unfold settle winCheck rowClearDetect lossCheck winFires
  repeat' split
  all_goals simp_all

theorem settle_rowCleared (σ : GState) :
    (settle σ).rowCleared =
      (match detectFound σ with
       | some r => some r
       | none => σ.rowCleared) := by
  unfold settle winCheck rowClearDetect lossCheck detectFound
  repeat' split
  all_goals simp_all

theorem settle_running_mono (σ : GState) :
    (settle σ).running = true → σ.running = true := by
  unfold settle winCheck rowClearDetect lossCheck
  repeat' split
  all_goals simp_all

theorem settle_running_of_winFires (σ : GState) (h : winFires σ = true) :
    (settle σ).running = false := by
  unfold settle winCheck
  rw [if_pos]
  exact h


/-! ## Basic facts about the primitive operations -/

theorem swapList_length {α : Type} (l : List α) (i j : Nat) :
    (swapList l i j).length = l.length := by
  unfold swapList
  repeat' split
  all_goals simp

/-- An in-range swap reads the other cell's tile. -/
theorem swapList_getElem_fst {α : Type} (l : List α) {i j : Nat}
    (hi : i < l.length) (hj : j < l.length) (hij : i ≠ j) :
    (swapList l i j)[i]? = l[j]? := by
  unfold swapList
  rw [List.getElem?_eq_getElem hi, List.getElem?_eq_getElem hj]
  simp only [List.getElem?_set_ne hij.symm, List.getElem?_set_self (by simpa using hi)]

theorem swapList_getElem_snd {α : Type} (l : List α) {i j : Nat}
    (hi : i < l.length) (hj : j < l.length) :
    (swapList l i j)[j]? = l[i]? := by
  unfold swapList
  rcases eq_or_ne i j with h | h
  · subst h
    rw [List.getElem?_eq_getElem hi]
    simp [List.getElem?_set_self, hi]
  · rw [List.getElem?_eq_getElem hi, List.getElem?_eq_getElem hj]
    simp [List.getElem?_set_self, hi, hj]

/-- Cells other than the two swapped ones are untouched. -/
theorem swapList_getElem_other {α : Type} (l : List α) {i j k : Nat}
    (hki : k ≠ i) (hkj : k ≠ j) :
    (swapList l i j)[k]? = l[k]? := by
  unfold swapList
  repeat' split
  all_goals simp [List.getElem?_set_ne (Ne.symm hki), List.getElem?_set_ne (Ne.symm hkj)]

/-- Writing each of two cells' entries into the other is a permutation
(core of `swapList_perm`). -/
theorem perm_set_set {α : Type} :
    ∀ (l : List α) (i j : Nat) (hi : i < l.length) (hj : j < l.length),
      ((l.set i l[j]).set j l[i]).Perm l
  | [], i, j, hi, _ => absurd hi (by simp)
  | a :: t, 0, 0, _, _ => by simp
  | a :: t, 0, m + 1, hi, hj => by
    simp only [List.getElem_cons_succ, List.getElem_cons_zero, List.set_cons_zero,
      List.set_cons_succ]
    have hm : m < t.length := by simpa using hj
    have hdec : t = t.take m ++ t[m] :: t.drop (m + 1) := by
      rw [List.getElem_cons_drop, List.take_append_drop]
    rw [List.set_eq_take_cons_drop a hm]
    refine List.Perm.trans (List.Perm.cons _ List.perm_middle)
      (List.Perm.trans (List.Perm.swap a (t[m]) _)
        (List.Perm.trans (List.Perm.cons _ List.perm_middle.symm) ?_))
    rw [← hdec]
  | a :: t, n + 1, 0, hi, hj => by
    simp only [List.getElem_cons_succ, List.getElem_cons_zero, List.set_cons_zero,
      List.set_cons_succ]
    have hn : n < t.length := by simpa using hi
    have hdec : t = t.take n ++ t[n] :: t.drop (n + 1) := by
      rw [List.getElem_cons_drop, List.take_append_drop]
    rw [List.set_eq_take_cons_drop a hn]
    refine List.Perm.trans (List.Perm.cons _ List.perm_middle)
      (List.Perm.trans (List.Perm.swap a (t[n]) _)
        (List.Perm.trans (List.Perm.cons _ List.perm_middle.symm) ?_))
    rw [← hdec]
  | a :: t, n + 1, m + 1, hi, hj => by
    simp only [List.getElem_cons_succ, List.set_cons_succ]
    exact List.Perm.cons a (perm_set_set t n m (by simpa using hi) (by simpa using hj))

/-- A swap permutes the tiles (multisets of entries agree). -/
theorem swapList_perm {α : Type} (l : List α) (i j : Nat) :
    (swapList l i j).Perm l := by
  unfold swapList
  split
  case h_1 x y hx hy =>
    rw [List.getElem?_eq_some_iff] at hx hy
    obtain ⟨hi, hxe⟩ := hx
    obtain ⟨hj, hye⟩ := hy
    subst hxe hye
    exact perm_set_set l i j hi hj
  case h_2 => exact List.Perm.refl l

theorem clampLow_nonneg (x : Int) : 0 ≤ clampLow x := by
  unfold clampLow
  split
  all_goals omega

theorem clampLow_le {x c : Int} (hc : 0 ≤ c) (hx : x ≤ c) : clampLow x ≤ c := by
  unfold clampLow
  split
  all_goals omega

theorem clampHigh_le (x : Int) : clampHigh x ≤ SCORE_CAP := by
  unfold clampHigh
  split
  all_goals omega

theorem clampHigh_nonneg {x : Int} (h : 0 ≤ x) : 0 ≤ clampHigh x := by
  unfold clampHigh SCORE_CAP
  split
  all_goals omega

theorem insertNew_nodup {l : List Nat} (h : l.Nodup) (r : Nat) :
    (insertNew l r).Nodup := by
  unfold insertNew
  split
  · exact h
  · next hm =>
      exact List.Nodup.append h (List.nodup_singleton r)
        (fun x hx hx2 => hm (by rwa [List.mem_singleton.mp hx2] at hx))

theorem mem_insertNew {l : List Nat} {r x : Nat} :
    x ∈ insertNew l r ↔ x ∈ l ∨ x = r := by
  unfold insertNew
  split
  · next hm => constructor
               · exact fun h => Or.inl h
               · rintro (h | rfl)
                 · exact h
                 · exact hm
  · simp

theorem subset_insertNew (l : List Nat) (r : Nat) : l ⊆ insertNew l r := by
  intro x hx
  exact mem_insertNew.mpr (Or.inl hx)

/-- Cell `(r, c)` of a `size`-wide board lies in row `r`. -/
theorem cellIdx_div {r c size : Nat} (hc : c < size) :
    cellIdx r c size / size = r := by
  unfold cellIdx
  have hpos : 0 < size := Nat.lt_of_le_of_lt (Nat.zero_le c) hc
  rw [Nat.add_comm, Nat.add_mul_div_right _ _ hpos, Nat.div_eq_of_lt hc]
  omega

/-- A swap whose two cells lie outside row `r` leaves the row's string
unchanged. -/
theorem rowString_swapList {board : List Tile} {size a b r : Nat}
    (ha : a / size ≠ r) (hb : b / size ≠ r) :
    rowString (swapList board a b) size r = rowString board size r := by
  unfold rowString
  refine List.map_congr_left (fun c hc => ?_)
  rw [List.mem_range] at hc
  have hca : cellIdx r c size ≠ a := fun h => ha (by rw [← h, cellIdx_div hc])
  have hcb : cellIdx r c size ≠ b := fun h => hb (by rw [← h, cellIdx_div hc])
  rw [swapList_getElem_other board hca hcb]

/-- A duplicate-free list of `n` naturals all below `n` contains every
natural below `n`. -/
theorem mem_of_nodup_length {l : List Nat} {n : Nat} (hd : l.Nodup)
    (hb : ∀ x ∈ l, x < n) (hl : l.length = n) : ∀ r < n, r ∈ l := by
  intro r hr
  have hsub : l.toFinset ⊆ Finset.range n := by
    intro x hx
    rw [List.mem_toFinset] at hx
    exact Finset.mem_range.mpr (hb x hx)
  have hcard : (Finset.range n).card ≤ l.toFinset.card := by
    rw [List.toFinset_card_of_nodup hd, hl, Finset.card_range]
  have := Finset.eq_of_subset_of_card_le hsub hcard
  have hmem : r ∈ l.toFinset := by
    rw [this]
    exact Finset.mem_range.mpr hr
  rwa [List.mem_toFinset] at hmem

/-- `rowMatches` only looks at the words, the board and the size. -/
theorem rowMatches_congr {σ σ2 : GState} (hs : σ2.secrets = σ.secrets)
    (hb : σ2.board = σ.board) (hz : σ2.size = σ.size) :
    rowMatches σ2 = rowMatches σ := by
  funext r
  unfold rowMatches rowString
  rw [hs, hb, hz]


/-! ## The session invariant

`Inv` packages the state facts every reachable session satisfies: the
meter is clamped to `[0, cap]`, the locked-row set is duplicate-free,
locked rows are genuine solved rows, a celebrating row is a solved
unlocked row, and a won session has stopped with no pending celebration. -/

def Inv (σ : GState) : Prop :=
  (0 ≤ σ.score ∧ σ.score ≤ SCORE_CAP) ∧
  σ.lockedRows.Nodup ∧
  (∀ r ∈ σ.lockedRows, r < σ.size ∧ rowMatches σ r = true) ∧
  (∀ r, σ.rowCleared = some r → r < σ.size ∧ r ∉ σ.lockedRows ∧ rowMatches σ r = true) ∧
  (σ.won = true → σ.running = false ∧ σ.rowCleared = none)

theorem detectFound_some {σ : GState} {r : Nat} (h : detectFound σ = some r) :
    r < σ.size ∧ r ∉ σ.lockedRows ∧ rowMatches σ r = true := by
  unfold detectFound at h
  split at h
  · exact absurd h (by simp)
  · have hmem := List.mem_range.mp (List.mem_of_find?_eq_some h)
    have hp := List.find?_some h
    simp only [Bool.and_eq_true, Bool.not_eq_true', decide_eq_false_iff_not] at hp
    exact ⟨hmem, hp.1, hp.2⟩

theorem detectFound_of_flag {σ : GState} (h : σ.won = true ∨ σ.lost = true) :
    detectFound σ = none := by
  unfold detectFound
  rw [if_pos]
  rcases h with h | h
  all_goals simp [h]

theorem winFires_spec {σ : GState} (h : winFires σ = true) :
    σ.lockedRows.length = σ.size ∧ 0 < σ.size := by
  unfold winFires at h
  simp only [Bool.and_eq_true, beq_iff_eq, decide_eq_true_eq] at h
  exact h

/-- The effect flush preserves the invariant. -/
theorem settle_inv {σ : GState} (h : Inv σ) : Inv (settle σ) := by
  obtain ⟨hsc, hnd, hlock, hrc, hwon⟩ := h
  have hrm : rowMatches (settle σ) = rowMatches σ :=
    rowMatches_congr (settle_secrets σ) (settle_board σ) (settle_size σ)
  refine ⟨?_, ?_, ?_, ?_, ?_⟩
  · rw [settle_score]
    exact hsc
  · rw [settle_lockedRows]
    exact hnd
  · rw [settle_lockedRows, settle_size, hrm]
    exact hlock
  · intro r hr
    rw [settle_lockedRows, settle_size, hrm]
    rw [settle_rowCleared] at hr
    cases hd : detectFound σ with
    | some r2 =>
      rw [hd] at hr
      simp only [Option.some.injEq] at hr
      subst hr
      exact detectFound_some hd
    | none =>
      rw [hd] at hr
      exact hrc r hr
  · intro hw
    rw [settle_won, Bool.or_eq_true] at hw
    rcases hw with hw | hw
    · obtain ⟨hr1, hr2⟩ := hwon hw
      constructor
      · cases hrun : (settle σ).running
        · rfl
        · exact absurd (settle_running_mono σ hrun) (by simp [hr1])
      · rw [settle_rowCleared, detectFound_of_flag (Or.inl hw)]
        exact hr2
    · obtain ⟨hlen, hpos⟩ := winFires_spec hw
      have hfull := mem_of_nodup_length hnd (fun x hx => (hlock x hx).1) hlen
      constructor
      · exact settle_running_of_winFires σ hw
      · rw [settle_rowCleared]
        cases hd : detectFound σ with
        | some r2 =>
          obtain ⟨h1, h2, _⟩ := detectFound_some hd
          exact absurd (hfull r2 h1) h2
        | none =>
          cases hrc0 : σ.rowCleared with
          | none => rfl
          | some r =>
            obtain ⟨h1, h2, _⟩ := hrc r hrc0
            exact absurd (hfull r h1) h2

/-! Field laws of the event bodies. -/

theorem performSwap_fst (σ : GState) (a b : Nat) :
    (performSwap σ a b).1 =
      { σ with
          board := swapList σ.board a b
          running := true
          moves := σ.moves + 1
          score :=
            (fun s1 =>
              if (newlyGreenIDs (computeMarks σ.board σ.size σ.secrets σ.lockedRows)
                    (computeMarks (swapList σ.board a b) σ.size σ.secrets σ.lockedRows)
                    σ.rewardedGreen).isEmpty then s1
              else clampHigh (s1 + (newlyGreenIDs
                    (computeMarks σ.board σ.size σ.secrets σ.lockedRows)
                    (computeMarks (swapList σ.board a b) σ.size σ.secrets σ.lockedRows)
                    σ.rewardedGreen).length * GREEN_BONUS))
              (clampLow (σ.score - MOVE_PENALTY))
          rewardedGreen :=
            (newlyGreenIDs (computeMarks σ.board σ.size σ.secrets σ.lockedRows)
              (computeMarks (swapList σ.board a b) σ.size σ.secrets σ.lockedRows)
              σ.rewardedGreen).foldl insertNew σ.rewardedGreen } := rfl

theorem performSwap_score_bounds {σ : GState} (a b : Nat)
    (_h0 : 0 ≤ σ.score) (h1 : σ.score ≤ SCORE_CAP) :
    0 ≤ (performSwap σ a b).1.score ∧ (performSwap σ a b).1.score ≤ SCORE_CAP := by
  rw [performSwap_fst]
  simp only
  split
  · exact ⟨clampLow_nonneg _, clampLow_le (by unfold SCORE_CAP; omega) (by unfold MOVE_PENALTY at *; omega)⟩
  · refine ⟨clampHigh_nonneg ?_, clampHigh_le _⟩
    have := clampLow_nonneg (σ.score - MOVE_PENALTY)
    have hb : (0:Int) ≤ (newlyGreenIDs (computeMarks σ.board σ.size σ.secrets σ.lockedRows)
        (computeMarks (swapList σ.board a b) σ.size σ.secrets σ.lockedRows)
        σ.rewardedGreen).length * GREEN_BONUS := by
      unfold GREEN_BONUS
      positivity
    omega

/-- Decomposition of an accepted swap. -/
theorem canSwap_spec {σ : GState} {a b : Nat} (h : canSwapIndices σ a b = true) :
    a ≠ b ∧
    (a / σ.size ∉ σ.lockedRows ∧ σ.rowCleared ≠ some (a / σ.size)) ∧
    (b / σ.size ∉ σ.lockedRows ∧ σ.rowCleared ≠ some (b / σ.size)) := by
  unfold canSwapIndices isRowLocked rowOf at h
  split at h
  · exact absurd h (by simp)
  · next hab =>
    simp only [Bool.not_eq_true', Bool.or_eq_false_iff] at h
    obtain ⟨ha, hb⟩ := h
    simp only [Bool.or_eq_false_iff, decide_eq_false_iff_not, beq_eq_false_iff_ne] at ha hb
    refine ⟨by simpa using hab, ⟨ha.1, fun hc => ha.2 (by rw [hc])⟩,
      ⟨hb.1, fun hc => hb.2 (by rw [hc])⟩⟩

/-- `rowMatches` is unchanged by a swap outside the row. -/
theorem rowMatches_swap {σ σ2 : GState} {a b r : Nat}
    (hs : σ2.secrets = σ.secrets) (hb : σ2.board = swapList σ.board a b)
    (hz : σ2.size = σ.size)
    (ha : a / σ.size ≠ r) (hb2 : b / σ.size ≠ r) :
    rowMatches σ2 r = rowMatches σ r := by
  unfold rowMatches
  rw [hs, hz, hb]
  cases hsec : σ.secrets[r]? with
  | none => rfl
  | some w => rw [rowString_swapList ha hb2]

/-- One step preserves the invariant. -/
theorem step_inv {σ : GState} {e : Event} {p : GState × List Nat}
    (h : Inv σ) (hs : step σ e = some p) : Inv p.1 := by
  obtain ⟨hsc, hnd, hlock, hrc, hwon⟩ := h
  cases e with
  | swap a b =>
    rcases hps : performSwap σ a b with ⟨σ1, nl⟩
    simp only [step, hps] at hs
    split at hs
    case isTrue hg =>
      simp only [Option.some.injEq] at hs
      subst hs
      simp only [Bool.and_eq_true, Bool.not_eq_true', decide_eq_true_eq] at hg
      obtain ⟨⟨⟨⟨hW, hL⟩, hcan⟩, hA⟩, hB⟩ := hg
      obtain ⟨hab, ⟨haL, haC⟩, ⟨hbL, hbC⟩⟩ := canSwap_spec hcan
      have h1 : σ1 = (performSwap σ a b).1 := by rw [hps]
      have hfields := performSwap_fst σ a b
      have hsec2 : σ1.secrets = σ.secrets := by rw [h1, hfields]
      have hboard2 : σ1.board = swapList σ.board a b := by rw [h1, hfields]
      have hsize2 : σ1.size = σ.size := by rw [h1, hfields]
      have hlock2 : σ1.lockedRows = σ.lockedRows := by rw [h1, hfields]
      have hrc2 : σ1.rowCleared = σ.rowCleared := by rw [h1, hfields]
      have hwon2 : σ1.won = σ.won := by rw [h1, hfields]
      refine settle_inv ⟨?_, ?_, ?_, ?_, ?_⟩
      · rw [h1]
        exact performSwap_score_bounds a b hsc.1 hsc.2
      · rw [hlock2]
        exact hnd
      · intro r hr
        rw [hlock2] at hr
        have hprev := hlock r hr
        have hne_a : a / σ.size ≠ r := fun hc => haL (by rw [hc]; exact hr)
        have hne_b : b / σ.size ≠ r := fun hc => hbL (by rw [hc]; exact hr)
        rw [hsize2, rowMatches_swap hsec2 hboard2 hsize2 hne_a hne_b]
        exact hprev
      · intro r hr
        rw [hrc2] at hr
        have hprev := hrc r hr
        have hne_a : a / σ.size ≠ r := fun hc => haC (by rw [hc]; exact hr)
        have hne_b : b / σ.size ≠ r := fun hc => hbC (by rw [hc]; exact hr)
        rw [hsize2, hlock2, rowMatches_swap hsec2 hboard2 hsize2 hne_a hne_b]
        exact hprev
      · intro hw
        rw [hwon2] at hw
        exact absurd hw (by simp [hW])
    case isFalse => exact absurd hs (by simp)
  | tick =>
    simp only [step] at hs
    split at hs
    case isTrue hg =>
      simp only [Option.some.injEq] at hs
      subst hs
      simp only [Bool.and_eq_true, Bool.not_eq_true'] at hg
      refine settle_inv ⟨⟨clampLow_nonneg _, clampLow_le (by unfold SCORE_CAP; omega)
        (by unfold DECAY_PER_SEC; omega)⟩, hnd, hlock, hrc, ?_⟩
      intro hw
      exact absurd hw (by simp [hg.1.2])
    case isFalse => exact absurd hs (by simp)
  | celeTimeout =>
    simp only [step] at hs
    split at hs
    case h_1 r hr =>
      simp only [Option.some.injEq] at hs
      subst hs
      obtain ⟨hrlt, hrnotin, hrmatch⟩ := hrc r hr
      have hWfalse : σ.won = false := by
        cases hwcase : σ.won
        · rfl
        · exact absurd hr (by rw [(hwon hwcase).2]; simp)
      refine settle_inv ⟨?_, insertNew_nodup hnd r, ?_, ?_, ?_⟩
      · constructor
        · apply clampHigh_nonneg
          have : (0:Int) ≤ ROW_SOLVED_BONUS_PER_SIZE * σ.size := by
            unfold ROW_SOLVED_BONUS_PER_SIZE
            positivity
          omega
        · exact clampHigh_le _
      · intro x hx
        rcases mem_insertNew.mp hx with hx | rfl
        · exact hlock x hx
        · exact ⟨hrlt, hrmatch⟩
      · intro x hx
        exact absurd hx (by simp)
      · intro hw
        simp only at hw
        exact absurd hw (by simp [hWfalse])
    case h_2 => exact absurd hs (by simp)
  | restart n pref =>
    simp only [step, Option.some.injEq] at hs
    subst hs
    rcases hmk : makeCampaignBoard n pref σ.rng with ⟨w, b, r⟩
    have hsg : startGame σ n pref =
        { size := n, secrets := w, board := b, lockedRows := [], moves := 0,
          seconds := 0, running := true, won := false, lost := false,
          rowCleared := none, score := SCORE_START, rewardedGreen := [],
          rng := r } := by
      unfold startGame
      rw [hmk]
    refine settle_inv ?_
    rw [hsg]
    refine ⟨⟨by norm_num [SCORE_START], by norm_num [SCORE_START, SCORE_CAP]⟩,
      List.nodup_nil, ?_, ?_, ?_⟩
    · intro x hx
      exact absurd hx (by simp)
    · intro x hx
      exact absurd hx (by simp)
    · intro hw
      exact absurd hw (by simp)

/-- Any run preserves the invariant. -/
theorem steps_inv {σ σ2 : GState} {es : List Event}
    (h : Inv σ) (hs : steps σ es = some σ2) : Inv σ2 := by
  induction es generalizing σ with
  | nil =>
    simp only [steps, Option.some.injEq] at hs
    subst hs
    exact h
  | cons e es ih =>
    simp only [steps] at hs
    cases hstep : step σ e with
    | none => rw [hstep] at hs; exact absurd hs (by simp)
    | some p =>
      rw [hstep] at hs
      exact ih (step_inv h hstep) hs

/-- The invariant holds on mount. -/
theorem mount_inv (g : Nat → Nat) : Inv (mount g) := by
  rcases hmk : makeCampaignBoard 5 none ⟨g, 0⟩ with ⟨w, b, r⟩
  have hm : mount g = settle
      { size := 5, secrets := w, board := b, lockedRows := [], moves := 0,
        seconds := 0, running := false, won := false, lost := false,
        rowCleared := none, score := SCORE_START, rewardedGreen := [],
        rng := r } := by
    unfold mount
    rw [hmk]
  rw [hm]
  refine settle_inv ⟨⟨by norm_num [SCORE_START], by norm_num [SCORE_START, SCORE_CAP]⟩,
    List.nodup_nil, ?_, ?_, ?_⟩
  · intro x hx
    exact absurd hx (by simp)
  · intro x hx
    exact absurd hx (by simp)
  · intro hw
    exact absurd hw (by simp)

/-- Every reachable session state satisfies the invariant. -/
theorem reachable_inv {σ : GState} (h : Reachable σ) : Inv σ := by
  obtain ⟨g, es, hs⟩ := h
  exact steps_inv (mount_inv g) hs


/-- If the loss guard holds on the committed state, the flush stops the
clock. -/
theorem settle_running_of_lossFires (σ : GState) (h : lossFires σ = true) :
    (settle σ).running = false := by
  unfold lossFires at h
  unfold settle winCheck rowClearDetect lossCheck
  repeat' split
  all_goals simp_all

/-- A duplicate-free in-range locked set missing one in-range row is not
full. -/
theorem locked_length_ne {l : List Nat} {n r0 : Nat} (hd : l.Nodup)
    (hb : ∀ x ∈ l, x < n) (hr0 : r0 < n) (hout : r0 ∉ l) : l.length ≠ n :=
  fun heq => hout (mem_of_nodup_length hd hb heq r0 hr0)

theorem div_lt_of_lt_mul {a n : Nat} (h : a < n * n) : a / n < n := by
  rcases Nat.eq_zero_or_pos n with rfl | hn
  · simpa using h
  · exact Nat.div_lt_iff_lt_mul hn |>.mpr h

/-- The glued counterexample run. -/
theorem cex_run_T11 :
    steps (mount cexG)
      ([Event.swap 0 5] ++ ([.swap 5 6] ++ ([.swap 5 6] ++
        ([.celeTimeout, .celeTimeout] ++ ([.swap 11 16] ++
        ([.celeTimeout, .celeTimeout] ++ ([.swap 22 23] ++ ([.swap 20 21] ++
        ([.swap 20 21] ++ ([.swap 22 23] ++
        List.replicate 66 .tick)))))))))) = some cexT11 := by
  rw [cex_mount_eq]
  exact steps_trans cex_seg1 (steps_trans cex_seg2 (steps_trans cex_seg3
    (steps_trans cex_seg4 (steps_trans cex_seg5 (steps_trans cex_seg6
    (steps_trans cex_seg7 (steps_trans cex_seg8 (steps_trans cex_seg9
    (steps_trans cex_seg10 cex_seg11)))))))))

theorem cex_T11_reachable : Reachable cexT11 :=
  ⟨cexG, _, cex_run_T11⟩

/-- The final swap of the counterexample, at the `step` level. -/
theorem cex_step_final : step cexT11 (.swap 20 21) = some (cexT12, []) := by rfl

/-- The closing celebration timeout of the counterexample. -/
theorem cex_step_close : step cexT12 .celeTimeout = some (cexT13, []) := by rfl

theorem cex_T12_reachable : Reachable cexT12 :=
  ⟨cexG, _, steps_trans cex_run_T11 cex_seg12⟩

theorem cex_T13_reachable : Reachable cexT13 :=
  ⟨cexG, _, steps_trans (steps_trans cex_run_T11 cex_seg12) cex_seg13⟩

/-! ## Claim C6 — the meter is clamped to `[0, cap]` -/

/-- C6: after every operation of a session the score lies in `[0, cap]`
(in half-points: `[0, SCORE_CAP]`), and the clamped primitives that make
up each operation (the `Math.max(0, ·)` debit and `Math.min(cap, ·)`
credit, which are the only intermediate score values inside one
operation) stay inside the interval as well. -/
theorem c6_score_clamped :
    (∀ σ : GState, Reachable σ → 0 ≤ σ.score ∧ σ.score ≤ SCORE_CAP) ∧
    (∀ s : Int, 0 ≤ s → s ≤ SCORE_CAP →
      (∀ d : Int, 0 ≤ d → 0 ≤ clampLow (s - d) ∧ clampLow (s - d) ≤ SCORE_CAP) ∧
      (∀ b : Int, 0 ≤ b → 0 ≤ clampHigh (s + b) ∧ clampHigh (s + b) ≤ SCORE_CAP)) := by
  constructor
  · intro σ h
    exact (reachable_inv h).1
  · intro s hs0 hs1
    constructor
    · intro d hd
      exact ⟨clampLow_nonneg _, clampLow_le (by unfold SCORE_CAP; omega) (by omega)⟩
    · intro b hb
      exact ⟨clampHigh_nonneg (by omega), clampHigh_le _⟩

/-- Witness for C6 at the mounted counterexample session and at concrete
meter values. -/
theorem c6_score_clamped_witness :
    (0 ≤ (mount cexG).score ∧ (mount cexG).score ≤ SCORE_CAP) ∧
    (0 ≤ clampLow (200 - 4) ∧ clampLow (200 - 4) ≤ SCORE_CAP) ∧
    (0 ≤ clampHigh (196 + 10) ∧ clampHigh (196 + 10) ≤ SCORE_CAP) :=
  ⟨c6_score_clamped.1 (mount cexG) ⟨cexG, [], rfl⟩,
   (c6_score_clamped.2 200 (by decide) (by decide)).1 4 (by decide),
   (c6_score_clamped.2 196 (by decide) (by decide)).2 10 (by decide)⟩

/-! ## Claim C4 — terminal-flag exclusivity (refuted, amended) -/

/-- Counterexample to C4: a reachable session state carries `won` and
`lost` at the same time.  The score hits zero on the swap that completes
the final row; the loss effect fires, the pending celebration still locks
the row, and the win effect then fires as well. -/
theorem c4_counterexample :
    ∃ σ : GState, Reachable σ ∧ σ.won = true ∧ σ.lost = true :=
  ⟨cexT13, cex_T13_reachable, rfl, rfl⟩

/-- C4 (amended): in every reachable state a won session has stopped
running, and a session that is lost (or won) accepts no further decay
tick or swap — only a pending row celebration and a restart remain
possible.  The flags are not mutually exclusive in general: when the
score reaches zero on the swap that completes the final row, the session
first becomes lost and, after the celebration locks the row, also won. -/
theorem c4_flags_amended :
    (∀ σ : GState, Reachable σ → σ.won = true → σ.running = false) ∧
    (∀ σ : GState, σ.lost = true ∨ σ.won = true →
      step σ .tick = none ∧ ∀ a b, step σ (.swap a b) = none) := by
  constructor
  · intro σ h hw
    exact ((reachable_inv h).2.2.2.2 hw).1
  · intro σ h
    constructor
    · rcases h with h | h
      all_goals simp [step, h]
    · intro a b
      rcases h with h | h
      all_goals simp [step, h]

/-- Witness for C4 (amended) at the two terminal counterexample states. -/
theorem c4_flags_amended_witness :
    cexT13.running = false ∧ step cexT12 .tick = none ∧
      step cexT12 (.swap 6 7) = none :=
  ⟨c4_flags_amended.1 cexT13 cex_T13_reachable rfl,
   (c4_flags_amended.2 cexT12 (Or.inl rfl)).1,
   (c4_flags_amended.2 cexT12 (Or.inl rfl)).2 6 7⟩

/-! ## Claim C3 — win is not checked before loss (refuted, amended) -/

/-- Counterexample to C3: a reachable state from which one legal swap
zeroes the score while completing the only remaining unsolved row — and
the resulting state is `lost`, not `won`. -/
theorem c3_counterexample :
    ∃ σ σ2 : GState, Reachable σ ∧ step σ (.swap 20 21) = some (σ2, []) ∧
      σ2.score = 0 ∧ rowMatches σ2 4 = true ∧ σ2.lockedRows = [0, 1, 2, 3] ∧
      σ2.size = 5 ∧ σ2.lost = true ∧ σ2.won = false :=
  ⟨cexT11, cexT12, cex_T11_reachable, cex_step_final,
   rfl, by decide, rfl, rfl, rfl, rfl⟩

/-- C3 (amended): when a legal swap brings the score to `0`, the loss
check fires in that very tick — the state becomes `lost` and stops
running — while the win check cannot fire, because the swapped rows were
not locked, so the locked-row set was not yet full.  (The row still locks
later through the pending celebration, after which the win flag is also
set; the session does not end in the won state alone.) -/
theorem c3_loss_first {σ : GState} {a b : Nat} {p : GState × List Nat}
    (hreach : Reachable σ) (hs : step σ (.swap a b) = some p)
    (hz : p.1.score ≤ 0) :
    p.1.lost = true ∧ p.1.won = false ∧ p.1.running = false := by
  obtain ⟨_, hnd, hlock, _, _⟩ := reachable_inv hreach
  rcases hps : performSwap σ a b with ⟨σ1, nl⟩
  simp only [step, hps] at hs
  split at hs
  case isTrue hg =>
    simp only [Option.some.injEq] at hs
    subst hs
    simp only [Bool.and_eq_true, Bool.not_eq_true', decide_eq_true_eq] at hg
    obtain ⟨⟨⟨⟨hW, hL⟩, hcan⟩, hA⟩, hB⟩ := hg
    obtain ⟨hab, ⟨haL, _⟩, _⟩ := canSwap_spec hcan
    have h1 : σ1 = (performSwap σ a b).1 := by rw [hps]
    have hfields := performSwap_fst σ a b
    have hwon1 : σ1.won = false := by rw [h1, hfields]; exact hW
    have hlost1 : σ1.lost = false := by rw [h1, hfields]; exact hL
    have hlock1 : σ1.lockedRows = σ.lockedRows := by rw [h1, hfields]
    have hsize1 : σ1.size = σ.size := by rw [h1, hfields]
    have hsc1 : σ1.score ≤ 0 := by
      have hz2 : (settle σ1).score ≤ 0 := hz
      rwa [settle_score] at hz2
    have hlf : lossFires σ1 = true := by
      unfold lossFires
      simp [hwon1, hsc1]
    have hwf : winFires σ1 = false := by
      unfold winFires
      have hne : σ.lockedRows.length ≠ σ.size :=
        locked_length_ne hnd (fun x hx => (hlock x hx).1)
          (div_lt_of_lt_mul hA) haL
      simp [hlock1, hsize1, hne]
    refine ⟨?_, ?_, ?_⟩
    · show (settle σ1).lost = true
      rw [settle_lost, hlost1, hlf]
      rfl
    · show (settle σ1).won = false
      rw [settle_won, hwon1, hwf]
      rfl
    · show (settle σ1).running = false
      exact settle_running_of_lossFires σ1 hlf
  case isFalse => exact absurd hs (by simp)

/-- Witness for C3 (amended) at the counterexample's final swap. -/
theorem c3_loss_first_witness :
    cexT12.lost = true ∧ cexT12.won = false ∧ cexT12.running = false := by
  have h := c3_loss_first (σ := cexT11) (a := 20) (b := 21)
    (p := (cexT12, [])) cex_T11_reachable cex_step_final (by decide)
  exact h

/-! ## Claim C9 — a swap exchanges exactly the two chosen tiles -/

/-- C9: an accepted swap writes each of the two cells' tiles into the
other cell and leaves every other cell unchanged. -/
theorem c9_swap_frame {σ : GState} {a b : Nat} {p : GState × List Nat}
    (hs : step σ (.swap a b) = some p)
    (ha : a < σ.board.length) (hb : b < σ.board.length) :
    p.1.board[a]? = σ.board[b]? ∧ p.1.board[b]? = σ.board[a]? ∧
    (∀ i : Nat, i ≠ a → i ≠ b → p.1.board[i]? = σ.board[i]?) ∧
    p.1.board.length = σ.board.length := by
  rcases hps : performSwap σ a b with ⟨σ1, nl⟩
  simp only [step, hps] at hs
  split at hs
  case isTrue hg =>
    simp only [Option.some.injEq] at hs
    subst hs
    simp only [Bool.and_eq_true, Bool.not_eq_true', decide_eq_true_eq] at hg
    obtain ⟨⟨⟨⟨hW, hL⟩, hcan⟩, hA⟩, hB⟩ := hg
    obtain ⟨hab, _, _⟩ := canSwap_spec hcan
    have h1 : σ1 = (performSwap σ a b).1 := by rw [hps]
    have hboard1 : σ1.board = swapList σ.board a b := by
      rw [h1, performSwap_fst]
    have hsb : (settle σ1).board = swapList σ.board a b := by
      rw [settle_board, hboard1]
    refine ⟨?_, ?_, ?_, ?_⟩
    · show (settle σ1).board[a]? = σ.board[b]?
      rw [hsb]
      exact swapList_getElem_fst σ.board ha hb hab
    · show (settle σ1).board[b]? = σ.board[a]?
      rw [hsb]
      exact swapList_getElem_snd σ.board ha hb
    · intro i hia hib
      show (settle σ1).board[i]? = σ.board[i]?
      rw [hsb]
      exact swapList_getElem_other σ.board hia hib
    · show (settle σ1).board.length = σ.board.length
      rw [hsb, swapList_length]
  case isFalse => exact absurd hs (by simp)

/-- Witness for C9 at the counterexample's final swap. -/
theorem c9_swap_frame_witness :
    cexT12.board[20]? = cexT11.board[21]? ∧
    cexT12.board[21]? = cexT11.board[20]? ∧
    cexT12.board[7]? = cexT11.board[7]? := by
  have h := c9_swap_frame (σ := cexT11) (a := 20) (b := 21)
    (p := (cexT12, [])) cex_step_final (by decide) (by decide)
  exact ⟨h.1, h.2.1, h.2.2.1 7 (by decide) (by decide)⟩

/-! ## Claim C8 — locked rows (partly refuted, amended) -/

/-- Counterexample to the "added when its live letters first equal its
target word" part of C8: in the counterexample session, row 1 already
equals its target word right after the board mounts and a swap solves
rows 0 and 1 together (state `cexT1`), is then scrambled again while
still unlocked (state `cexT2`), and is locked only later (final state
`cexT13`) — so the moment it is added is not the first moment its letters
matched. -/
theorem c8_counterexample :
    ∃ σa σb σc : GState, Reachable σa ∧
      rowMatches σa 1 = true ∧ (1 : Nat) ∉ σa.lockedRows ∧
      steps σa [.swap 5 6] = some σb ∧
      rowMatches σb 1 = false ∧ (1 : Nat) ∉ σb.lockedRows ∧
      steps σb ([.swap 5 6] ++ ([.celeTimeout, .celeTimeout] ++
        ([.swap 11 16] ++ ([.celeTimeout, .celeTimeout] ++ ([.swap 22 23] ++
        ([.swap 20 21] ++ ([.swap 20 21] ++ ([.swap 22 23] ++
        (List.replicate 66 .tick ++ ([.swap 20 21] ++
        [.celeTimeout])))))))))) = some σc ∧
      (1 : Nat) ∈ σc.lockedRows :=
  ⟨cexT1, cexT2, cexT13,
   ⟨cexG, _, by rw [cex_mount_eq]; exact cex_seg1⟩,
   by decide, by decide, cex_seg2, by decide, by decide,
   steps_trans cex_seg3 (steps_trans cex_seg4 (steps_trans cex_seg5
     (steps_trans cex_seg6 (steps_trans cex_seg7 (steps_trans cex_seg8
     (steps_trans cex_seg9 (steps_trans cex_seg10 (steps_trans cex_seg11
     (steps_trans cex_seg12 cex_seg13))))))))),
   by decide⟩

/-- C8 (amended): within one session the locked-row set grows
monotonically (no event except a restart removes a row), never holds a
row twice, and in every reachable state each locked row's live letters
equal its target word (no accepted swap can move a locked row's tiles, so
rows are locked only while solved and stay solved).  The row is added
when its letters equal the target at the moment of locking — not
necessarily the first time they matched. -/
theorem c8_locked_rows_amended :
    (∀ (σ : GState) (e : Event) (p : GState × List Nat),
      step σ e = some p → (∀ n pref, e ≠ .restart n pref) →
      σ.lockedRows ⊆ p.1.lockedRows) ∧
    (∀ σ : GState, Reachable σ →
      σ.lockedRows.Nodup ∧
      ∀ r ∈ σ.lockedRows, r < σ.size ∧ rowMatches σ r = true) := by
  constructor
  · intro σ e p hs hnr
    cases e with
    | swap a b =>
      rcases hps : performSwap σ a b with ⟨σ1, nl⟩
      simp only [step, hps] at hs
      split at hs
      case isTrue =>
        simp only [Option.some.injEq] at hs
        subst hs
        show σ.lockedRows ⊆ (settle σ1).lockedRows
        rw [settle_lockedRows, show σ1.lockedRows = σ.lockedRows from by
          rw [show σ1 = (performSwap σ a b).1 from by rw [hps], performSwap_fst]]
        exact fun x hx => hx
      case isFalse => exact absurd hs (by simp)
    | tick =>
      simp only [step] at hs
      split at hs
      case isTrue =>
        simp only [Option.some.injEq] at hs
        subst hs
        intro x hx
        rw [settle_lockedRows]
        exact hx
      case isFalse => exact absurd hs (by simp)
    | celeTimeout =>
      simp only [step] at hs
      split at hs
      case h_1 r hr =>
        simp only [Option.some.injEq] at hs
        subst hs
        intro x hx
        rw [settle_lockedRows]
        exact subset_insertNew σ.lockedRows r hx
      case h_2 => exact absurd hs (by simp)
    | restart n pref => exact absurd rfl (hnr n pref)
  · intro σ h
    obtain ⟨_, hnd, hlock, _, _⟩ := reachable_inv h
    exact ⟨hnd, hlock⟩

/-- Witness for C8 (amended): the locking step of the counterexample
grows the set, and the final state's locked rows are duplicate-free and
solved. -/
theorem c8_locked_rows_amended_witness :
    cexT12.lockedRows ⊆ cexT13.lockedRows ∧
    cexT13.lockedRows.Nodup ∧ rowMatches cexT13 4 = true :=
  ⟨c8_locked_rows_amended.1 cexT12 .celeTimeout (cexT13, []) cex_step_close
     (fun n pref h => by cases h),
   (c8_locked_rows_amended.2 cexT13 cex_T13_reachable).1,
   ((c8_locked_rows_amended.2 cexT13 cex_T13_reachable).2 4 (by decide)).2⟩


/-! ## Claim C7 — the green bonus is credited at most once per tile id -/

/-- Keys of a marks map. -/
def mkeys (m : Marks) : List Nat := m.map Prod.fst

/-- A generic foldl invariant. -/
theorem foldl_preserve {α β : Type} (P : β → Prop) (f : β → α → β)
    (hf : ∀ b a, P b → P (f b a)) :
    ∀ (l : List α) (b : β), P b → P (l.foldl f b) := by
  intro l
  induction l with
  | nil => intro b hb; exact hb
  | cons a t ih => intro b hb; exact ih _ (hf b a hb)

theorem mkeys_mset (m : Marks) (k : Nat) (h : Hint) :
    mkeys (mset m k h) = if mhas m k then mkeys m else mkeys m ++ [k] := by
  unfold mset mkeys
  split
  · rw [List.map_map]
    refine List.map_congr_left (fun p _ => ?_)
    by_cases hk : p.1 = k
    · simp [hk]
    · simp [Function.comp, hk]
  · simp

theorem mhas_iff_mem_mkeys (m : Marks) (k : Nat) :
    mhas m k = true ↔ k ∈ mkeys m := by
  unfold mhas mkeys
  rw [Option.isSome_iff_exists]
  constructor
  · rintro ⟨p, hp⟩
    have hm := List.mem_of_find?_eq_some hp
    have hpk := List.find?_some hp
    simp only [beq_iff_eq] at hpk
    exact hpk ▸ List.mem_map_of_mem Prod.fst hm
  · intro hk
    rcases List.mem_map.mp hk with ⟨p, hpm, hpe⟩
    have : (List.find? (fun q => q.1 == k) m).isSome = true := by
      rw [List.find?_isSome]
      exact ⟨p, hpm, by simp [hpe]⟩
    rcases Option.isSome_iff_exists.mp this with ⟨q, hq⟩
    exact ⟨q, hq⟩

theorem mkeys_nodup_mset {m : Marks} (hm : (mkeys m).Nodup) (k : Nat) (h : Hint) :
    (mkeys (mset m k h)).Nodup := by
  rw [mkeys_mset]
  split
  · exact hm
  · next hh =>
    refine List.Nodup.append hm (List.nodup_singleton k) ?_
    intro x hx hx2
    rw [List.mem_singleton] at hx2
    subst hx2
    exact hh ((mhas_iff_mem_mkeys m x).mpr hx)

/-- `computeMarks` never assigns two entries to one id. -/
theorem computeMarks_keys_nodup (board : List Tile) (size : Nat)
    (secrets : List (List Char)) (locked : List Nat) :
    (mkeys (computeMarks board size secrets locked)).Nodup := by
  unfold computeMarks
  have P : ∀ st : MarkSt, (mkeys st.marks).Nodup → (mkeys (pass4 board size st).marks).Nodup := by
    intro st h
    unfold pass4
    refine foldl_preserve (fun st : MarkSt => (mkeys st.marks).Nodup) _ ?_ _ _ h
    intro st2 i h2
    cases board[i]? with
    | none => exact h2
    | some t =>
      simp only
      split
      · exact h2
      · exact mkeys_nodup_mset h2 _ _
  apply P
  have P3 : ∀ st : MarkSt, (mkeys st.marks).Nodup →
      (mkeys (pass3 board size secrets st).marks).Nodup := by
    intro st h
    unfold pass3
    refine foldl_preserve (fun st : MarkSt => (mkeys st.marks).Nodup) _ ?_ _ _ h
    intro st2 c h2
    refine foldl_preserve (fun st : MarkSt => (mkeys st.marks).Nodup) _ ?_ _ _ h2
    intro st3 r h3
    cases board[cellIdx r c size]? with
    | none => exact h3
    | some t =>
      simp only
      split
      · exact h3
      · split
        · exact mkeys_nodup_mset h3 _ _
        · exact h3
  apply P3
  have P2 : ∀ st : MarkSt, (mkeys st.marks).Nodup →
      (mkeys (pass2 board size secrets locked st).marks).Nodup := by
    intro st h
    unfold pass2
    refine foldl_preserve (fun st : MarkSt => (mkeys st.marks).Nodup) _ ?_ _ _ h
    intro st2 r h2
    split
    · exact h2
    · refine foldl_preserve (fun st : MarkSt => (mkeys st.marks).Nodup) _ ?_ _ _ h2
      intro st3 c h3
      cases board[cellIdx r c size]? with
      | none => exact h3
      | some t =>
        simp only
        split
        · exact h3
        · split
          · exact mkeys_nodup_mset h3 _ _
          · exact h3
  apply P2
  have P1 : ∀ st : MarkSt, (mkeys st.marks).Nodup →
      (mkeys (pass1 board size secrets st).marks).Nodup := by
    intro st h
    unfold pass1
    refine foldl_preserve (fun st : MarkSt => (mkeys st.marks).Nodup) _ ?_ _ _ h
    intro st2 i h2
    cases board[i]? with
    | none => exact h2
    | some t =>
      simp only
      split
      · exact mkeys_nodup_mset h2 _ _
      · exact h2
  apply P1
  exact List.nodup_nil

/-- The credited ids of one diff are distinct, disjoint from the
already-credited set, and drawn from the new marks. -/
theorem newlyGreenIDs_spec (prev next : Marks) (already : List Nat)
    (hnd : (mkeys next).Nodup) :
    (newlyGreenIDs prev next already).Nodup ∧
    ∀ x ∈ newlyGreenIDs prev next already, x ∉ already := by
  unfold newlyGreenIDs
  suffices h : ∀ (next2 : Marks) (acc : List Nat), (mkeys next2).Nodup → acc.Nodup →
      (∀ x ∈ acc, x ∉ already) → (∀ x ∈ mkeys next2, x ∉ acc) →
      (next2.foldl (fun gained p =>
        if p.2 = Hint.g ∧ mlookup prev p.1 ≠ some Hint.g ∧ p.1 ∉ already then
          gained ++ [p.1] else gained) acc).Nodup ∧
      ∀ x ∈ (next2.foldl (fun gained p =>
        if p.2 = Hint.g ∧ mlookup prev p.1 ≠ some Hint.g ∧ p.1 ∉ already then
          gained ++ [p.1] else gained) acc), x ∉ already by
    exact h next [] hnd List.nodup_nil (by simp) (by simp)
  intro next2
  induction next2 with
  | nil => intro acc _ h2 h3 _; exact ⟨h2, h3⟩
  | cons p t ih =>
    intro acc h1 h2 h3 h4
    have hkeys : mkeys (p :: t) = p.1 :: mkeys t := by
      unfold mkeys
      simp
    rw [hkeys, List.nodup_cons] at h1
    have hmem_head : p.1 ∈ mkeys (p :: t) := by
      rw [hkeys]
      exact List.mem_cons_self _ _
    have hmem_tail : ∀ x ∈ mkeys t, x ∈ mkeys (p :: t) := by
      intro x hx
      rw [hkeys]
      exact List.mem_cons_of_mem _ hx
    simp only [List.foldl_cons]
    split
    · next hcond =>
      refine ih (acc ++ [p.1]) h1.2 ?_ ?_ ?_
      · refine List.Nodup.append h2 (List.nodup_singleton _) ?_
        intro x hx hx2
        rw [List.mem_singleton] at hx2
        subst hx2
        exact h4 p.1 hmem_head hx
      · intro x hx
        rcases List.mem_append.mp hx with hx | hx
        · exact h3 x hx
        · rw [List.mem_singleton] at hx
          subst hx
          exact hcond.2.2
      · intro x hx hmem
        rcases List.mem_append.mp hmem with hm | hm
        · exact h4 x (hmem_tail x hx) hm
        · rw [List.mem_singleton] at hm
          subst hm
          exact h1.1 hx
    · refine ih acc h1.2 h2 h3 ?_
      intro x hx
      exact h4 x (hmem_tail x hx)

/-- Folding `Set.add` over fresh distinct ids is plain concatenation. -/
theorem foldl_insertNew_eq_append :
    ∀ (newly rewarded : List Nat), (∀ x ∈ newly, x ∉ rewarded) → newly.Nodup →
      newly.foldl insertNew rewarded = rewarded ++ newly := by
  intro newly
  induction newly with
  | nil => intro rewarded _ _; simp
  | cons k t ih =>
    intro rewarded hdisj hnd
    simp only [List.foldl_cons]
    have hk : insertNew rewarded k = rewarded ++ [k] := by
      unfold insertNew
      rw [if_neg (hdisj k (by simp))]
    rw [hk, ih (rewarded ++ [k]) ?_ (List.nodup_cons.mp hnd).2, List.append_assoc]
    · rfl
    · intro x hx
      intro hmem
      rcases List.mem_append.mp hmem with hm | hm
      · exact hdisj x (by simp [hx]) hm
      · rw [List.mem_singleton] at hm
        subst hm
        exact (List.nodup_cons.mp hnd).1 hx

/-- The credited ids on a swap, and the untouched credit set otherwise. -/
theorem step_rewarded {σ : GState} {e : Event} {p : GState × List Nat}
    (hs : step σ e = some p) (hnr : ∀ n pref, e ≠ .restart n pref)
    (hnd : σ.rewardedGreen.Nodup) :
    p.1.rewardedGreen = σ.rewardedGreen ++ p.2 ∧
    p.2.Nodup ∧ (∀ x ∈ p.2, x ∉ σ.rewardedGreen) := by
  cases e with
  | swap a b =>
    rcases hps : performSwap σ a b with ⟨σ1, nl⟩
    simp only [step, hps] at hs
    split at hs
    case isTrue =>
      simp only [Option.some.injEq] at hs
      subst hs
      have h1 : σ1 = (performSwap σ a b).1 := by rw [hps]
      have h2 : nl = (performSwap σ a b).2 := by rw [hps]
      have hnl : nl = newlyGreenIDs (computeMarks σ.board σ.size σ.secrets σ.lockedRows)
          (computeMarks (swapList σ.board a b) σ.size σ.secrets σ.lockedRows)
          σ.rewardedGreen := by rw [h2]; rfl
      have hspec := newlyGreenIDs_spec
        (computeMarks σ.board σ.size σ.secrets σ.lockedRows)
        (computeMarks (swapList σ.board a b) σ.size σ.secrets σ.lockedRows)
        σ.rewardedGreen
        (computeMarks_keys_nodup (swapList σ.board a b) σ.size σ.secrets σ.lockedRows)
      rw [← hnl] at hspec
      obtain ⟨hnlnd, hnldisj⟩ := hspec
      have hrew : σ1.rewardedGreen = nl.foldl insertNew σ.rewardedGreen := by
        rw [h1, performSwap_fst, hnl]
      refine ⟨?_, hnlnd, hnldisj⟩
      show (settle σ1).rewardedGreen = σ.rewardedGreen ++ nl
      rw [settle_rewardedGreen, hrew, foldl_insertNew_eq_append nl σ.rewardedGreen hnldisj hnlnd]
    case isFalse => exact absurd hs (by simp)
  | tick =>
    simp only [step] at hs
    split at hs
    case isTrue =>
      simp only [Option.some.injEq] at hs
      subst hs
      refine ⟨?_, List.nodup_nil, by simp⟩
      show (settle _).rewardedGreen = σ.rewardedGreen ++ []
      rw [settle_rewardedGreen, List.append_nil]
    case isFalse => exact absurd hs (by simp)
  | celeTimeout =>
    simp only [step] at hs
    split at hs
    case h_1 r hr =>
      simp only [Option.some.injEq] at hs
      subst hs
      refine ⟨?_, List.nodup_nil, by simp⟩
      show (settle _).rewardedGreen = σ.rewardedGreen ++ []
      rw [settle_rewardedGreen, List.append_nil]
    case h_2 => exact absurd hs (by simp)
  | restart n pref => exact absurd rfl (hnr n pref)

/-- C7: along any restart-free event sequence of a session whose
credited-green set is duplicate-free, the green bonus is credited to
pairwise-distinct tile ids only (each id at most once across the whole
sequence), never to an id already in the credited set, and the credited
set grows by exactly the credited ids — it is never cleared or shrunk by
anything but a restart. -/
theorem c7_green_credited_once :
    ∀ (es : List Event) (σ : GState) (out : GState × List (List Nat)),
      (∀ e ∈ es, ∀ n pref, e ≠ Event.restart n pref) →
      stepsLog σ es = some out → σ.rewardedGreen.Nodup →
      out.1.rewardedGreen = σ.rewardedGreen ++ out.2.flatten ∧
      out.2.flatten.Nodup ∧
      (∀ x ∈ out.2.flatten, x ∉ σ.rewardedGreen) := by
  intro es
  induction es with
  | nil =>
    intro σ out _ hs hnd
    simp only [stepsLog, Option.some.injEq] at hs
    subst hs
    exact ⟨by simp, List.nodup_nil, by simp⟩
  | cons e t ih =>
    intro σ out hnr hs hnd
    cases hstep : step σ e with
    | none =>
      simp only [stepsLog, hstep] at hs
      exact absurd hs (by simp)
    | some q =>
      rcases q with ⟨σ1, nl1⟩
      cases hrest : stepsLog σ1 t with
      | none =>
        simp only [stepsLog, hstep, hrest] at hs
        exact absurd hs (by simp)
      | some out2 =>
        rcases out2 with ⟨σ2, log2⟩
        simp only [stepsLog, hstep, hrest, Option.some.injEq] at hs
        subst hs
        obtain ⟨hq1, hq2, hq3⟩ := step_rewarded hstep
          (hnr e (by simp)) hnd
        have hq1a : σ1.rewardedGreen = σ.rewardedGreen ++ nl1 := hq1
        have hq2a : nl1.Nodup := hq2
        have hq3a : ∀ x ∈ nl1, x ∉ σ.rewardedGreen := hq3
        have hq1nd : σ1.rewardedGreen.Nodup := by
          rw [hq1a]
          refine List.Nodup.append hnd hq2a ?_
          intro x hx hx2
          exact hq3a x hx2 hx
        obtain ⟨ho1, ho2, ho3⟩ := ih σ1 (σ2, log2)
          (fun e2 he2 => hnr e2 (by simp [he2])) hrest hq1nd
        have ho1a : σ2.rewardedGreen = σ1.rewardedGreen ++ log2.flatten := ho1
        have ho2a : log2.flatten.Nodup := ho2
        have ho3a : ∀ x ∈ log2.flatten, x ∉ σ1.rewardedGreen := ho3
        refine ⟨?_, ?_, ?_⟩
        · show σ2.rewardedGreen = σ.rewardedGreen ++ (nl1 :: log2).flatten
          rw [ho1a, hq1a]
          simp [List.append_assoc]
        · show (nl1 :: log2).flatten.Nodup
          simp only [List.flatten_cons]
          refine List.Nodup.append hq2a ho2a ?_
          intro x hx hx2
          have := ho3a x hx2
          rw [hq1a] at this
          exact this (List.mem_append.mpr (Or.inr hx))
        · show ∀ x ∈ (nl1 :: log2).flatten, x ∉ σ.rewardedGreen
          intro x hx
          simp only [List.flatten_cons, List.mem_append] at hx
          rcases hx with hx | hx
          · exact hq3a x hx
          · intro hmem
            have := ho3a x hx
            rw [hq1a] at this
            exact this (List.mem_append.mpr (Or.inl hmem))

/-- Witness for C7: the first swap of the counterexample session credits
tiles 1 and 6, starting from an empty credited set. -/
theorem c7_green_credited_once_witness :
    cexT1.rewardedGreen = cexMount.rewardedGreen ++ [[1, 6]].flatten ∧
    ([[1, 6]] : List (List Nat)).flatten.Nodup := by
  have hlog : stepsLog cexMount [.swap 0 5] = some (cexT1, [[1, 6]]) := by rfl
  have h := c7_green_credited_once [.swap 0 5] cexMount (cexT1, [[1, 6]])
    (by intro e he n pref; simp at he; subst he; simp) hlog (by decide)
  exact ⟨h.1, h.2.1⟩


/-! ## C10: distinct target words -/

/-- The dedup fold keeps any duplicate-free accumulator duplicate-free. -/
theorem dedup_foldl_nodup (l : List (List Char)) :
    ∀ acc : List (List Char), acc.Nodup →
      (l.foldl (fun acc w => if w ∈ acc then acc else acc ++ [w]) acc).Nodup := by
  induction l with
  | nil => intro acc h; exact h
  | cons w t ih =>
    intro acc h
    simp only [List.foldl_cons]
    split
    · exact ih acc h
    · next hw =>
      refine ih _ (List.Nodup.append h (List.nodup_singleton _) ?_)
      intro x hx hx2
      rw [List.mem_singleton] at hx2
      subst hx2
      exact hw hx

/-- `Array.from(new Set(pool))` is duplicate-free. -/
theorem dedupFirst_nodup (l : List (List Char)) : (dedupFirst l).Nodup :=
  dedup_foldl_nodup l [] List.nodup_nil

/-- The Fisher–Yates pass of `chooseCampaignWords` permutes its input. -/
theorem fyAux_perm (i : Nat) :
    ∀ (l : List (List Char)) (rng : Rng), (fyAux i l rng).1.Perm l := by
  induction i with
  | zero => intro l rng; exact List.Perm.refl l
  | succ n ih =>
    intro l rng
    show (fyAux n (swapList l (n + 1) (rng.next (n + 2)).1)
            (rng.next (n + 2)).2).1.Perm l
    exact (ih _ _).trans (swapList_perm l (n + 1) (rng.next (n + 2)).1)

/-- The pop-fill loop keeps words duplicate-free whenever the pool is
duplicate-free and disjoint from them, and with enough pool it appends
exactly `fuel` words. -/
theorem popFillAux_spec (fuel : Nat) :
    ∀ (words pool : List (List Char)),
      words.Nodup → pool.Nodup → (∀ w ∈ pool, w ∉ words) →
      (popFillAux fuel words pool).1.Nodup ∧
      (fuel ≤ pool.length →
        (popFillAux fuel words pool).1.length = words.length + fuel) := by
  induction fuel with
  | zero =>
    intro words pool h1 _ _
    exact ⟨h1, fun _ => rfl⟩
  | succ n ih =>
    intro words pool h1 h2 h3
    rcases pool.eq_nil_or_concat with hpe | ⟨L, b, hpe⟩
    · subst hpe
      refine ⟨h1, ?_⟩
      intro hle
      simp only [List.length_nil] at hle
      omega
    · rw [List.concat_eq_append] at hpe
      subst hpe
      have hstep : popFillAux (n + 1) words (L ++ [b]) =
          popFillAux n (words ++ [b]) L := by
        simp only [popFillAux, List.getLast?_concat, List.dropLast_concat]
      have hnd := List.nodup_append.mp h2
      have hbL : b ∉ L := fun hb => hnd.2.2 hb (List.mem_singleton.mpr rfl)
      have hwb : (words ++ [b]).Nodup := by
        refine List.Nodup.append h1 (List.nodup_singleton _) ?_
        intro x hx hx2
        rw [List.mem_singleton] at hx2
        rw [hx2] at hx
        exact h3 b (by simp) hx
      have hdisj : ∀ w ∈ L, w ∉ words ++ [b] := by
        intro w hw hmem
        rcases List.mem_append.mp hmem with hm | hm
        · exact h3 w (by simp [hw]) hm
        · rw [List.mem_singleton] at hm
          subst hm
          exact hbL hw
      obtain ⟨ihn, ihl⟩ := ih (words ++ [b]) L hwb hnd.1 hdisj
      refine ⟨?_, ?_⟩
      · rw [hstep]; exact ihn
      · intro hle
        have hle' : n ≤ L.length := by
          have hlb : (L ++ [b]).length = L.length + 1 := by simp
          omega
        rw [hstep, ihl hle']
        simp only [List.length_append, List.length_singleton]
        omega

/-- `while (words.length < size && poolAll.length) words.push(poolAll.pop()!)`
with a large enough duplicate-free pool returns exactly `size` distinct
words. -/
theorem popFill_spec (size : Nat) (words pool : List (List Char))
    (h1 : words.Nodup) (h2 : pool.Nodup) (h3 : ∀ w ∈ pool, w ∉ words)
    (hlen : size - words.length ≤ pool.length) (hwl : words.length ≤ size) :
    (popFill size words pool).1.Nodup ∧
    (popFill size words pool).1.length = size := by
  obtain ⟨hn, hl⟩ := popFillAux_spec (size - words.length) words pool h1 h2 h3
  refine ⟨hn, ?_⟩
  show (popFillAux (size - words.length) words pool).1.length = size
  rw [hl hlen]
  omega

/-- The fallback loop is a no-op when the word list is already full. -/
theorem fbLoop_full (size : Nat) (fb : List (List Char)) (fuel : Nat)
    (words : List (List Char)) (rng : Rng) (h : ¬ words.length < size) :
    fbLoop size fb fuel words rng = (words, rng) := by
  cases fuel with
  | zero => rfl
  | succ n => simp only [fbLoop, if_neg h]

/-- Unfolding `chooseCampaignWords` along known results of its stages. -/
theorem chooseWords_unfold (size : Nat) (pref : Option (List Char)) (rng : Rng)
    (words0 pool0 : List (List Char)) (rng0 : Rng)
    (pool1 : List (List Char)) (rngA : Rng)
    (words1 poolRest : List (List Char))
    (words2 : List (List Char)) (rngB : Rng)
    (h0 : (match pref with
           | some p =>
             if p.isEmpty then
               (([] : List (List Char)), dedupFirst ((WORDSopt size).getD []),
                rng)
             else
               match pickWord size (some p) rng with
               | (first, rngP) =>
                 ([first],
                  (dedupFirst ((WORDSopt size).getD [])).erase first, rngP)
           | none => ([], dedupFirst ((WORDSopt size).getD []), rng)) =
          (words0, pool0, rng0))
    (hA : fyShuffle pool0 rng0 = (pool1, rngA))
    (hB : popFill size words0 pool1 = (words1, poolRest))
    (hC : fbLoop size ((WORDSopt size).getD []) 1000 words1 rngA =
          (words2, rngB)) :
    chooseCampaignWords size pref rng = (words2.take size, rngB) := by
  unfold chooseCampaignWords
  show (match (match pref with
         | some p =>
           if p.isEmpty then
             (([] : List (List Char)), dedupFirst ((WORDSopt size).getD []),
              rng)
           else
             match pickWord size (some p) rng with
             | (first, rngP) =>
               ([first],
                (dedupFirst ((WORDSopt size).getD [])).erase first, rngP)
         | none => ([], dedupFirst ((WORDSopt size).getD []), rng)) with
       | (w0, p0, r0) =>
         match fyShuffle p0 r0 with
         | (p1, r1) =>
           match popFill size w0 p1 with
           | (w1, _) =>
             match fbLoop size ((WORDSopt size).getD []) 1000 w1 r1 with
             | (w2, r2) => (w2.take size, r2)) = (words2.take size, rngB)
  rw [h0]
  show (match fyShuffle pool0 rng0 with
        | (p1, r1) =>
          match popFill size words0 p1 with
          | (w1, _) =>
            match fbLoop size ((WORDSopt size).getD []) 1000 w1 r1 with
            | (w2, r2) => (w2.take size, r2)) = (words2.take size, rngB)
  rw [hA]
  show (match popFill size words0 pool1 with
        | (w1, _) =>
          match fbLoop size ((WORDSopt size).getD []) 1000 w1 rngA with
          | (w2, r2) => (w2.take size, r2)) = (words2.take size, rngB)
  rw [hB]
  show (match fbLoop size ((WORDSopt size).getD []) 1000 words1 rngA with
        | (w2, r2) => (w2.take size, r2)) = (words2.take size, rngB)
  rw [hC]

/-- The shuffle/pop-fill/fallback tail of `chooseCampaignWords` on a
duplicate-free starting state with a large enough pool. -/
theorem chooseTail_spec (size : Nat) (words0 pool0 : List (List Char))
    (rng0 : Rng)
    (h1 : words0.Nodup) (h2 : pool0.Nodup) (h3 : ∀ w ∈ pool0, w ∉ words0)
    (hlen : size - words0.length ≤ pool0.length) (hwl : words0.length ≤ size) :
    ∀ (pool1 : List (List Char)) (rngA : Rng)
      (words1 poolRest words2 : List (List Char)) (rngB : Rng),
      fyShuffle pool0 rng0 = (pool1, rngA) →
      popFill size words0 pool1 = (words1, poolRest) →
      fbLoop size ((WORDSopt size).getD []) 1000 words1 rngA =
        (words2, rngB) →
      (words2.take size).Nodup ∧ (words2.take size).length = size := by
  intro pool1 rngA words1 poolRest words2 rngB hA hB hC
  have hperm : pool1.Perm pool0 := by
    have h := fyAux_perm (pool0.length - 1) pool0 rng0
    rw [show fyAux (pool0.length - 1) pool0 rng0 = (pool1, rngA) from hA] at h
    exact h
  have hp1nd : pool1.Nodup := hperm.nodup_iff.mpr h2
  have hp1dj : ∀ w ∈ pool1, w ∉ words0 := fun w hw => h3 w (hperm.mem_iff.mp hw)
  have hlen1 : size - words0.length ≤ pool1.length := by
    rw [hperm.length_eq]; exact hlen
  obtain ⟨hw1nd0, hw1len0⟩ := popFill_spec size words0 pool1 h1 hp1nd hp1dj
    hlen1 hwl
  have ha : words1.Nodup := by rw [hB] at hw1nd0; exact hw1nd0
  have hb : words1.length = size := by rw [hB] at hw1len0; exact hw1len0
  have hfull : ¬ words1.length < size := by omega
  have h6 := hC.symm.trans
    (fbLoop_full size ((WORDSopt size).getD []) 1000 words1 rngA hfull)
  have hw2 : words2 = words1 := congrArg Prod.fst h6
  have htake : words2.take size = words2 := by
    rw [hw2, ← hb]
    exact List.take_length words1
  rw [htake, hw2]
  exact ⟨ha, hb⟩

/-- With a deduplicated pool of at least `size` words,
`chooseCampaignWords` returns `size` pairwise-distinct words. -/
theorem chooseCampaignWords_spec (size : Nat) (pref : Option (List Char))
    (rng : Rng) (hsz : 0 < size)
    (hpool : size ≤ (dedupFirst ((WORDSopt size).getD [])).length) :
    (chooseCampaignWords size pref rng).1.Nodup ∧
    (chooseCampaignWords size pref rng).1.length = size := by
  have hpnd : (dedupFirst ((WORDSopt size).getD [])).Nodup :=
    dedupFirst_nodup ((WORDSopt size).getD [])
  obtain ⟨words0, pool0, rng0, h0, h1, h2, h3, hlen, hwl⟩ :
      ∃ (words0 pool0 : List (List Char)) (rng0 : Rng),
        (match pref with
         | some p =>
           if p.isEmpty then
             (([] : List (List Char)), dedupFirst ((WORDSopt size).getD []),
              rng)
           else
             match pickWord size (some p) rng with
             | (first, rngP) =>
               ([first],
                (dedupFirst ((WORDSopt size).getD [])).erase first, rngP)
         | none => ([], dedupFirst ((WORDSopt size).getD []), rng)) =
          (words0, pool0, rng0) ∧
        words0.Nodup ∧ pool0.Nodup ∧ (∀ w ∈ pool0, w ∉ words0) ∧
        size - words0.length ≤ pool0.length ∧ words0.length ≤ size := by
    cases pref with
    | none =>
      exact ⟨[], dedupFirst ((WORDSopt size).getD []), rng, rfl,
        List.nodup_nil, hpnd, by simp, by simpa using hpool, by simp⟩
    | some p =>
      by_cases hpe : p.isEmpty = true
      · refine ⟨[], dedupFirst ((WORDSopt size).getD []), rng, ?_,
          List.nodup_nil, hpnd, by simp, by simpa using hpool, by simp⟩
        show (if p.isEmpty = true then _ else _) = _
        rw [if_pos hpe]
      · rcases hpk : pickWord size (some p) rng with ⟨first, rngP⟩
        refine ⟨[first], (dedupFirst ((WORDSopt size).getD [])).erase first,
          rngP, ?_, List.nodup_singleton first, hpnd.erase first, ?_, ?_,
          by simp; omega⟩
        · show (if p.isEmpty = true then _ else
                match pickWord size (some p) rng with
                | (f, r) =>
                  ([f], (dedupFirst ((WORDSopt size).getD [])).erase f, r)) = _
          rw [if_neg hpe, hpk]
        · intro w hw
          rw [hpnd.mem_erase_iff] at hw
          simp [hw.1]
        · have h1l : ([first] : List (List Char)).length = 1 := rfl
          by_cases hf : first ∈ dedupFirst ((WORDSopt size).getD [])
          · rw [h1l, List.length_erase_of_mem hf]; omega
          · rw [h1l, List.erase_of_not_mem hf]; omega
  rcases hA : fyShuffle pool0 rng0 with ⟨pool1, rngA⟩
  rcases hB : popFill size words0 pool1 with ⟨words1, poolRest⟩
  rcases hC : fbLoop size ((WORDSopt size).getD []) 1000 words1 rngA
    with ⟨words2, rngB⟩
  have ht := chooseTail_spec size words0 pool0 rng0 h1 h2 h3 hlen hwl
    pool1 rngA words1 poolRest words2 rngB hA hB hC
  rw [chooseWords_unfold size pref rng words0 pool0 rng0 pool1 rngA
    words1 poolRest words2 rngB h0 hA hB hC]
  exact ht

/-- The target words of a generated board are the chosen campaign words:
the retry loop only reshuffles tiles. -/
theorem makeBoard_words (size : Nat) (pref : Option (List Char)) (rng : Rng) :
    (makeCampaignBoard size pref rng).1 = (chooseCampaignWords size pref rng).1
    := by
  rcases hw : chooseCampaignWords size pref rng with ⟨words, rng1⟩
  rcases hs : shuffleByAdjSwaps size (max 300 (size * size * 10))
      (initialBoard size words) rng1 with ⟨b1, rng2⟩
  rcases hr : retryLoop words size 50 b1 rng2 with ⟨b2, rng3, tries⟩
  rw [makeBoard_unfold size pref rng words b2 rng3 tries
    (makeAux_unfold size pref rng words rng1 b1 rng2 b2 rng3 tries hw hs hr)]

/-- C10: for every shipped board size (3–6) and every optional preferred
word, the deduplicated per-size pool has at least `size` words, and board
generation returns exactly `size` pairwise-distinct target words. -/
theorem c10_words_distinct (size : Nat) (pref : Option (List Char))
    (g : Nat → Nat) (k : Nat)
    (hsz : size = 3 ∨ size = 4 ∨ size = 5 ∨ size = 6) :
    (makeCampaignBoard size pref ⟨g, k⟩).1.Nodup ∧
    (makeCampaignBoard size pref ⟨g, k⟩).1.length = size := by
  have hpool : size ≤ (dedupFirst ((WORDSopt size).getD [])).length := by
    rcases hsz with h | h | h | h <;> subst h <;> decide
  have hp : 0 < size := by rcases hsz with h | h | h | h <;> omega
  have h := chooseCampaignWords_spec size pref ⟨g, k⟩ hp hpool
  rw [makeBoard_words]
  exact h

/-- Witness for C10: generation at size 3 on the all-zero stream. -/
theorem c10_words_distinct_witness :
    (makeCampaignBoard 3 none ⟨fun _ => 0, 0⟩).1.Nodup ∧
    (makeCampaignBoard 3 none ⟨fun _ => 0, 0⟩).1.length = 3 :=
  c10_words_distinct 3 none (fun _ => 0) 0 (Or.inl rfl)

/-! ## C2/C5: the zero-stream generation pipeline -/

/-- Gluing two shuffle segments. -/
theorem sh_glue {size m n : Nat} {b b1 b2 : List Tile} {r r1 r2 : Rng}
    (h1 : shuffleByAdjSwaps size m b r = (b1, r1))
    (h2 : shuffleByAdjSwaps size n b1 r1 = (b2, r2)) :
    shuffleByAdjSwaps size (m + n) b r = (b2, r2) := by
  rw [shuffleByAdjSwaps_add, h1]
  exact h2

/-- Unfolding one shuffle step along a known `shuffleStep` result. -/
theorem sh_succ {size s : Nat} {b b1 : List Tile} {rng rng1 : Rng}
    (h : shuffleStep size b rng = (b1, rng1)) :
    shuffleByAdjSwaps size (s + 1) b rng =
      shuffleByAdjSwaps size s b1 rng1 := by
  rw [shuffleByAdjSwaps]
  show (match shuffleStep size b rng with
        | (ba, ra) => shuffleByAdjSwaps size s ba ra) =
      shuffleByAdjSwaps size s b1 rng1
  rw [h]

/-- Unfolding one retrying pass of the no-solved-row loop. -/
theorem retryLoop_cons (words : List (List Char)) (size fuel : Nat)
    (board : List Tile) (rng : Rng) (b1 : List Tile) (rng1 : Rng)
    (b2 : List Tile) (rng2 : Rng) (t : Nat)
    (hsolved : anyRowSolved words board size = true)
    (hsh : shuffleByAdjSwaps size (size * size) board rng = (b1, rng1))
    (hrec : retryLoop words size fuel b1 rng1 = (b2, rng2, t)) :
    retryLoop words size (fuel + 1) board rng = (b2, rng2, t + 1) := by
  rw [retryLoop, if_pos hsolved]
  show (match shuffleByAdjSwaps size (size * size) board rng with
        | (ba, ra) =>
          match retryLoop words size fuel ba ra with
          | (bb, rb, tb) => (bb, rb, tb + 1)) = (b2, rng2, t + 1)
  rw [hsh]
  show (match retryLoop words size fuel b1 rng1 with
        | (bb, rb, tb) => (bb, rb, tb + 1)) = (b2, rng2, t + 1)
  rw [hrec]

/-- A single zero-stream step at size 4 swaps cells 0 and 4. -/
theorem zs4a (k : Nat) :
    shuffleStep 4 z4Board0 ⟨zeroStream, k⟩ =
      (z4BoardSw, ⟨zeroStream, k + 2⟩) := by with_unfolding_all rfl

/-- The next zero-stream step swaps them back. -/
theorem zs4b (k : Nat) :
    shuffleStep 4 z4BoardSw ⟨zeroStream, k⟩ =
      (z4Board0, ⟨zeroStream, k + 2⟩) := by with_unfolding_all rfl

/-- A single zero-stream step at size 5 swaps cells 0 and 5. -/
theorem zs5a (k : Nat) :
    shuffleStep 5 cexBoard0 ⟨zeroStream, k⟩ =
      (z5BoardSw, ⟨zeroStream, k + 2⟩) := by with_unfolding_all rfl

/-- The next zero-stream step swaps them back. -/
theorem zs5b (k : Nat) :
    shuffleStep 5 z5BoardSw ⟨zeroStream, k⟩ =
      (cexBoard0, ⟨zeroStream, k + 2⟩) := by with_unfolding_all rfl

/-- An even number of zero-stream steps at size 4 is an identity. -/
theorem z4_even (n : Nat) : ∀ k : Nat,
    shuffleByAdjSwaps 4 (2 * n) z4Board0 ⟨zeroStream, k⟩ =
      (z4Board0, ⟨zeroStream, k + 4 * n⟩) := by
  induction n with
  | zero => intro k; with_unfolding_all rfl
  | succ p ih =>
    intro k
    rw [show 2 * (p + 1) = 2 * p + 1 + 1 from by ring,
        show k + 4 * (p + 1) = k + 2 + 2 + 4 * p from by ring]
    exact (sh_succ (zs4a k)).trans ((sh_succ (zs4b (k + 2))).trans
      (ih (k + 2 + 2)))

/-- An even number of zero-stream steps at size 5 is an identity. -/
theorem z5_even (n : Nat) : ∀ k : Nat,
    shuffleByAdjSwaps 5 (2 * n) cexBoard0 ⟨zeroStream, k⟩ =
      (cexBoard0, ⟨zeroStream, k + 4 * n⟩) := by
  induction n with
  | zero => intro k; with_unfolding_all rfl
  | succ p ih =>
    intro k
    rw [show 2 * (p + 1) = 2 * p + 1 + 1 from by ring,
        show k + 4 * (p + 1) = k + 2 + 2 + 4 * p from by ring]
    exact (sh_succ (zs5a k)).trans ((sh_succ (zs5b (k + 2))).trans
      (ih (k + 2 + 2)))

/-- An even number of zero-stream steps from the toggled size-5 board. -/
theorem z5_even_sw (n : Nat) : ∀ k : Nat,
    shuffleByAdjSwaps 5 (2 * n) z5BoardSw ⟨zeroStream, k⟩ =
      (z5BoardSw, ⟨zeroStream, k + 4 * n⟩) := by
  induction n with
  | zero => intro k; with_unfolding_all rfl
  | succ p ih =>
    intro k
    rw [show 2 * (p + 1) = 2 * p + 1 + 1 from by ring,
        show k + 4 * (p + 1) = k + 2 + 2 + 4 * p from by ring]
    exact (sh_succ (zs5b k)).trans ((sh_succ (zs5a (k + 2))).trans
      (ih (k + 2 + 2)))

/-- The 300 base shuffle steps at size 4 on the zero stream. -/
theorem z4_base (k : Nat) :
    shuffleByAdjSwaps 4 (max 300 (4 * 4 * 10)) z4Board0 ⟨zeroStream, k⟩ =
      (z4Board0, ⟨zeroStream, k + 600⟩) := by
  have h := z4_even 150 k
  rw [show (2 * 150 : Nat) = max 300 (4 * 4 * 10) from by norm_num,
      show (4 * 150 : Nat) = 600 from by norm_num] at h
  exact h

/-- A 16-step retry pass at size 4 is an identity. -/
theorem z4_sh16 (k : Nat) :
    shuffleByAdjSwaps 4 (4 * 4) z4Board0 ⟨zeroStream, k⟩ =
      (z4Board0, ⟨zeroStream, k + 32⟩) := by
  have h := z4_even 8 k
  rw [show (2 * 8 : Nat) = 4 * 4 from by norm_num,
      show (4 * 8 : Nat) = 32 from by norm_num] at h
  exact h

/-- The 300 base shuffle steps at size 5 on the zero stream. -/
theorem z5_base (k : Nat) :
    shuffleByAdjSwaps 5 (max 300 (5 * 5 * 10)) cexBoard0 ⟨zeroStream, k⟩ =
      (cexBoard0, ⟨zeroStream, k + 600⟩) := by
  have h := z5_even 150 k
  rw [show (2 * 150 : Nat) = max 300 (5 * 5 * 10) from by norm_num,
      show (4 * 150 : Nat) = 600 from by norm_num] at h
  exact h

/-- An odd 25-step retry pass at size 5 toggles tiles 1 and 6. -/
theorem z5_sh25a (k : Nat) :
    shuffleByAdjSwaps 5 (5 * 5) cexBoard0 ⟨zeroStream, k⟩ =
      (z5BoardSw, ⟨zeroStream, k + 50⟩) := by
  have h := (sh_succ (zs5a k)).trans (z5_even_sw 12 (k + 2))
  rw [show (2 * 12 + 1 : Nat) = 5 * 5 from by norm_num] at h
  rw [show k + 2 + 4 * 12 = k + 50 from by omega] at h
  exact h

/-- The next 25-step pass toggles them back. -/
theorem z5_sh25b (k : Nat) :
    shuffleByAdjSwaps 5 (5 * 5) z5BoardSw ⟨zeroStream, k⟩ =
      (cexBoard0, ⟨zeroStream, k + 50⟩) := by
  have h := (sh_succ (zs5b k)).trans (z5_even 12 (k + 2))
  rw [show (2 * 12 + 1 : Nat) = 5 * 5 from by norm_num] at h
  rw [show k + 2 + 4 * 12 = k + 50 from by omega] at h
  exact h

/-- The retry loop at size 4 never escapes the solved board: each pass is
an identity, so the whole budget is burned. -/
theorem z4_retry (fuel : Nat) : ∀ k : Nat,
    retryLoop z4Words 4 fuel z4Board0 ⟨zeroStream, k⟩ =
      (z4Board0, ⟨zeroStream, k + 32 * fuel⟩, fuel) := by
  induction fuel with
  | zero => intro k; with_unfolding_all rfl
  | succ p ih =>
    intro k
    rw [show k + 32 * (p + 1) = k + 32 + 32 * p from by ring]
    exact retryLoop_cons z4Words 4 p z4Board0 ⟨zeroStream, k⟩ z4Board0
      ⟨zeroStream, k + 32⟩ z4Board0 ⟨zeroStream, k + 32 + 32 * p⟩ p
      (by rfl) (z4_sh16 k) (ih (k + 32))

/-- An even number of size-5 retry passes returns to the solved board:
rows 2–4 stay solved throughout, so the loop keeps retrying. -/
theorem z5_retry2 (m : Nat) : ∀ k : Nat,
    retryLoop cexWords 5 (2 * m) cexBoard0 ⟨zeroStream, k⟩ =
      (cexBoard0, ⟨zeroStream, k + 100 * m⟩, 2 * m) := by
  induction m with
  | zero => intro k; with_unfolding_all rfl
  | succ p ih =>
    intro k
    rw [show 2 * (p + 1) = 2 * p + 1 + 1 from by ring,
        show k + 100 * (p + 1) = k + 100 + 100 * p from by ring]
    refine retryLoop_cons cexWords 5 (2 * p + 1) cexBoard0 ⟨zeroStream, k⟩
      z5BoardSw ⟨zeroStream, k + 50⟩ cexBoard0 ⟨zeroStream, k + 100 + 100 * p⟩
      (2 * p + 1) (by rfl) (z5_sh25a k) ?_
    refine retryLoop_cons cexWords 5 (2 * p) z5BoardSw ⟨zeroStream, k + 50⟩
      cexBoard0 ⟨zeroStream, k + 100⟩ cexBoard0 ⟨zeroStream, k + 100 + 100 * p⟩
      (2 * p) (by rfl) ?_ (ih (k + 100))
    have h := z5_sh25b (k + 50)
    rw [show k + 50 + 50 = k + 100 from by omega] at h
    exact h

/-- Word choice at size 4 from draw 0 of the zero stream. -/
theorem z4_words_eq0 :
    chooseCampaignWords 4 none ⟨zeroStream, 0⟩ =
      (z4Words, ⟨zeroStream, 23⟩) := by rfl

/-- Word choice at size 4 from draw 3148 of the zero stream (where the
restart of the zero-stream mount resumes). -/
theorem z4_words_eq3148 :
    chooseCampaignWords 4 none ⟨zeroStream, 3148⟩ =
      (z4Words, ⟨zeroStream, 3171⟩) := by rfl

/-- The solved truncated layout at size 4. -/
theorem z4_init_eq : initialBoard 4 z4Words = z4Board0 := by rfl

/-- Full generation at size 4 on the zero stream, given the word-choice
stage: the 50-try budget is exhausted and the solved truncated board is
returned. -/
theorem z4_makeAux_of (k kc : Nat)
    (hc : chooseCampaignWords 4 none ⟨zeroStream, k⟩ =
      (z4Words, ⟨zeroStream, kc⟩)) :
    makeCampaignBoardAux 4 none ⟨zeroStream, k⟩ =
      (z4Words, z4Board0, ⟨zeroStream, kc + 2200⟩, 50) := by
  refine makeAux_unfold 4 none _ z4Words ⟨zeroStream, kc⟩ z4Board0
    ⟨zeroStream, kc + 600⟩ z4Board0 ⟨zeroStream, kc + 2200⟩ 50 hc ?_ ?_
  · rw [z4_init_eq]
    exact z4_base kc
  · have h := z4_retry 50 (kc + 600)
    rw [show kc + 600 + 32 * 50 = kc + 2200 from by omega] at h
    exact h

/-- `makeCampaignBoard` at size 4 on the zero stream, from draw 0. -/
theorem z4_makeBoard0 :
    makeCampaignBoard 4 none ⟨zeroStream, 0⟩ =
      (z4Words, z4Board0, ⟨zeroStream, 2223⟩) := by
  have h := z4_makeAux_of 0 23 z4_words_eq0
  rw [show (23 + 2200 : Nat) = 2223 from by norm_num] at h
  exact makeBoard_unfold 4 none _ z4Words z4Board0 ⟨zeroStream, 2223⟩ 50 h

/-- `makeCampaignBoard` at size 4 on the zero stream, from draw 3148. -/
theorem z4_makeBoard3148 :
    makeCampaignBoard 4 none ⟨zeroStream, 3148⟩ =
      (z4Words, z4Board0, ⟨zeroStream, 5371⟩) := by
  have h := z4_makeAux_of 3148 3171 z4_words_eq3148
  rw [show (3171 + 2200 : Nat) = 5371 from by norm_num] at h
  exact makeBoard_unfold 4 none _ z4Words z4Board0 ⟨zeroStream, 5371⟩ 50 h

/-- Word choice at size 5 on the zero stream: the same words as the
counterexample stream. -/
theorem z5_words_eq :
    chooseCampaignWords 5 none ⟨zeroStream, 0⟩ =
      (cexWords, ⟨zeroStream, 48⟩) := by rfl

/-- Full generation at size 5 on the zero stream: the 50-try budget is
exhausted and the fully solved board is returned. -/
theorem z5_makeAux :
    makeCampaignBoardAux 5 none ⟨zeroStream, 0⟩ =
      (cexWords, cexBoard0, ⟨zeroStream, 3148⟩, 50) := by
  refine makeAux_unfold 5 none _ cexWords ⟨zeroStream, 48⟩ cexBoard0
    ⟨zeroStream, 648⟩ cexBoard0 ⟨zeroStream, 3148⟩ 50 z5_words_eq ?_ ?_
  · rw [cex_init_eq]
    have h := z5_base 48
    rw [show (48 : Nat) + 600 = 648 from by omega] at h
    exact h
  · have h := z5_retry2 25 648
    rw [show (2 * 25 : Nat) = 50 from by omega,
        show (648 : Nat) + 100 * 25 = 3148 from by omega] at h
    exact h

/-- `makeCampaignBoard` at size 5 on the zero stream. -/
theorem z5_makeBoard :
    makeCampaignBoard 5 none ⟨zeroStream, 0⟩ =
      (cexWords, cexBoard0, ⟨zeroStream, 3148⟩) :=
  makeBoard_unfold 5 none _ cexWords cexBoard0 ⟨zeroStream, 3148⟩ 50 z5_makeAux

/-- The mounted session of the all-zero stream. -/
theorem z5_mount_eq : mount zeroStream = z5Mount := by
  rw [mount_unfold zeroStream cexWords cexBoard0 ⟨zeroStream, 3148⟩
    z5_makeBoard]
  rfl

/-- Unfolding `startGame` along a known generation result. -/
theorem startGame_unfold (σ : GState) (newSize : Nat)
    (pref : Option (List Char)) (words : List (List Char)) (board : List Tile)
    (rng2 : Rng)
    (h : makeCampaignBoard newSize pref σ.rng = (words, board, rng2)) :
    startGame σ newSize pref =
      { size := newSize, secrets := words, board := board, lockedRows := [],
        moves := 0, seconds := 0, running := true, won := false, lost := false,
        rowCleared := none, score := SCORE_START, rewardedGreen := [],
        rng := rng2 } := by
  unfold startGame
  rw [h]

/-- Restarting the zero-stream mount at size 4 ships `z4State`. -/
theorem z4_restart :
    step z5Mount (.restart 4 none) = some (z4State, []) := by
  have hsg : startGame z5Mount 4 none =
      { size := 4, secrets := z4Words, board := z4Board0, lockedRows := [],
        moves := 0, seconds := 0, running := true, won := false, lost := false,
        rowCleared := none, score := SCORE_START, rewardedGreen := [],
        rng := ⟨zeroStream, 5371⟩ } := by
    refine startGame_unfold z5Mount 4 none z4Words z4Board0
      ⟨zeroStream, 5371⟩ ?_
    show makeCampaignBoard 4 none (⟨zeroStream, 3148⟩ : Rng) = _
    exact z4_makeBoard3148
  show some (settle (startGame z5Mount 4 none), []) = some (z4State, [])
  rw [hsg]
  rfl

/-- Unfolding one event of a run along a known `step` result. -/
theorem steps_cons {σ σ2 : GState} {nl : List Nat} (e : Event)
    (es : List Event) (h : step σ e = some (σ2, nl)) :
    steps σ (e :: es) = steps σ2 es := by
  rw [steps, h]

/-- `z4State` is reachable: mount the zero stream, restart at size 4. -/
theorem z4_reach :
    steps (mount zeroStream) [.restart 4 none] = some z4State := by
  rw [z5_mount_eq, steps_cons (.restart 4 none) [] z4_restart]
  rfl

/-- C2 (refuted — code bug): a reachable session state whose board does
not carry the same character multiset as its target words.  The shipped
4-letter pool contains the five-letter word `"BREAD"`; `initialBoard`
copies only 4 characters per row, so the generated board drops the `'D'`
and the two multisets differ (16 tiles vs 17 target characters). -/
theorem c2_multiset_counterexample :
    ∃ σ : GState, Reachable σ ∧
      ((σ.board.map Tile.char : Multiset Char) ≠
        (σ.secrets.flatten : Multiset Char)) := by
  refine ⟨z4State, ⟨zeroStream, [.restart 4 none], z4_reach⟩, ?_⟩
  intro h
  have h2 : (z4State.board.map Tile.char).length =
      z4State.secrets.flatten.length := by
    simpa using congrArg Multiset.card h
  exact absurd h2 (by decide)

/-- C5 (refuted half): a generation whose returned board has a solved
row — the zero-stream size-4 board ships with row 0 equal to its target
word `CODE`, because the 50-try reshuffle budget runs out. -/
theorem c5_solved_row_counterexample :
    ∃ (size : Nat) (pref : Option (List Char)) (rng : Rng) (r : Nat),
      r < size ∧
      rowString (makeCampaignBoard size pref rng).2.1 size r =
        (makeCampaignBoard size pref rng).1.getD r [] := by
  refine ⟨4, none, ⟨zeroStream, 0⟩, 0, by omega, ?_⟩
  rw [z4_makeBoard0]
  rfl

/-- If the retry loop exits below its budget, no row of the returned
board is solved. -/
theorem retryLoop_budget (words : List (List Char)) (size : Nat) :
    ∀ (fuel : Nat) (board : List Tile) (rng : Rng) (b : List Tile) (r : Rng)
      (t : Nat),
      retryLoop words size fuel board rng = (b, r, t) → t < fuel →
      anyRowSolved words b size = false := by
  intro fuel
  induction fuel with
  | zero => intro board rng b r t h ht; omega
  | succ n ih =>
    intro board rng b r t h ht
    cases hsol : anyRowSolved words board size with
    | false =>
      have hr0 : retryLoop words size (n + 1) board rng = (board, rng, 0) := by
        rw [retryLoop, if_neg (show ¬ anyRowSolved words board size = true by
          simp [hsol])]
      rw [hr0] at h
      have hb : board = b := congrArg (fun p => p.1) h
      rw [← hb]
      exact hsol
    | true =>
      rcases hsh : shuffleByAdjSwaps size (size * size) board rng with ⟨b1, r1⟩
      rcases hrec : retryLoop words size n b1 r1 with ⟨b2, r2, t2⟩
      rw [retryLoop_cons words size n board rng b1 r1 b2 r2 t2 hsol hsh hrec]
        at h
      have hb : b2 = b := congrArg (fun p => p.1) h
      have htt : t2 + 1 = t := congrArg (fun p => p.2.2) h
      rw [← hb]
      exact ih b1 r1 b2 r2 t2 hrec (by omega)

/-- C5 (amended): whenever board generation exits its reshuffle loop
before exhausting the 50-try budget, no row of the returned board equals
its target word. -/
theorem c5_no_solved_row_amended (size : Nat) (pref : Option (List Char))
    (rng : Rng) (words : List (List Char)) (board : List Tile) (rng2 : Rng)
    (tries : Nat)
    (h : makeCampaignBoardAux size pref rng = (words, board, rng2, tries))
    (hlt : tries < 50) :
    anyRowSolved words board size = false := by
  rcases hw : chooseCampaignWords size pref rng with ⟨words0, rng1a⟩
  rcases hs : shuffleByAdjSwaps size (max 300 (size * size * 10))
      (initialBoard size words0) rng1a with ⟨b1, rng2a⟩
  rcases hr : retryLoop words0 size 50 b1 rng2a with ⟨b2, rng3a, t0⟩
  rw [makeAux_unfold size pref rng words0 rng1a b1 rng2a b2 rng3a t0
    hw hs hr] at h
  have hW : words0 = words := congrArg (fun p => p.1) h
  have hB : b2 = board := congrArg (fun p => p.2.1) h
  have hT : t0 = tries := congrArg (fun p => p.2.2.2) h
  rw [← hW, ← hB]
  exact retryLoop_budget words0 size 50 b1 rng2a b2 rng3a t0 hr (by omega)

/-- Witness for the amended C5: the counterexample stream's size-5
generation succeeds after one retry (1 < 50), and indeed leaves no solved
row. -/
theorem c5_no_solved_row_amended_witness :
    anyRowSolved cexWords cexBoardM 5 = false :=
  c5_no_solved_row_amended 5 none ⟨cexG, 0⟩ cexWords cexBoardM ⟨cexG, 698⟩ 1
    cex_makeAux (by omega)

/-! ## C1: the mark engine matches its specification -/

/-- `marks.has` is definedness of `marks.get`. -/
theorem mhas_eq_isSome (m : Marks) (k : Nat) :
    mhas m k = (mlookup m k).isSome := by
  unfold mhas mlookup
  cases m.find? (fun p => p.1 == k) <;> rfl

/-- `marks.get` on a cons cell. -/
theorem mlookup_cons (q : Nat × Hint) (l : Marks) (k2 : Nat) :
    mlookup (q :: l) k2 = if q.1 == k2 then some q.2 else mlookup l k2 := by
  unfold mlookup
  show (match (match (q.1 == k2) with
               | true => some q
               | false => List.find? (fun p => p.1 == k2) l) with
        | some p => some p.2
        | none => none) = _
  by_cases hq : (q.1 == k2) = true
  · rw [if_pos hq, hq]
  · rw [if_neg hq, show (q.1 == k2) = false from by simpa using hq]

/-- `marks.has` on a cons cell. -/
theorem mhas_cons (q : Nat × Hint) (l : Marks) (k : Nat) :
    mhas (q :: l) k = ((q.1 == k) || mhas l k) := by
  unfold mhas
  show (match (q.1 == k) with
        | true => some q
        | false => List.find? (fun p => p.1 == k) l).isSome = _
  by_cases hq : (q.1 == k) = true
  · rw [hq]
    rfl
  · rw [show (q.1 == k) = false from by simpa using hq]
    rfl

/-- The replace-in-place branch of `marks.set` rewrites a present key. -/
theorem mlookup_map_set_self (m : Marks) (k : Nat) (h : Hint)
    (hm : mhas m k = true) :
    mlookup (m.map (fun p => if p.1 == k then (k, h) else p)) k = some h := by
  induction m with
  | nil => exact absurd hm (by simp [mhas, List.find?])
  | cons p t ih =>
    rw [mhas_cons] at hm
    simp only [List.map_cons]
    by_cases hp : (p.1 == k) = true
    · rw [show (if p.1 == k then ((k, h) : Nat × Hint) else p) = (k, h) from by
        rw [if_pos hp]]
      rw [mlookup_cons, if_pos (show (((k, h) : Nat × Hint).1 == k) = true
        from by simp)]
    · have hp2 : (p.1 == k) = false := by simpa using hp
      rw [show (if p.1 == k then ((k, h) : Nat × Hint) else p) = p from by
        rw [if_neg hp]]
      rw [mlookup_cons, if_neg (by simp [hp2])]
      rw [hp2] at hm
      exact ih (by simpa using hm)

/-- The replace-in-place branch of `marks.set` leaves other keys alone. -/
theorem mlookup_map_set_other (m : Marks) (k : Nat) (h : Hint) (k2 : Nat)
    (hne : k2 ≠ k) :
    mlookup (m.map (fun p => if p.1 == k then (k, h) else p)) k2 =
      mlookup m k2 := by
  induction m with
  | nil => rfl
  | cons p t ih =>
    simp only [List.map_cons]
    by_cases hp : (p.1 == k) = true
    · rw [show (if p.1 == k then ((k, h) : Nat × Hint) else p) = (k, h) from by
        rw [if_pos hp]]
      rw [mlookup_cons, mlookup_cons]
      have hpk : p.1 = k := by simpa using hp
      rw [if_neg (show ¬ (((k, h) : Nat × Hint).1 == k2) = true from by
            simp
            exact fun hh => hne hh.symm),
          if_neg (show ¬ (p.1 == k2) = true from by
            simp [hpk]
            exact fun hh => hne hh.symm)]
      exact ih
    · rw [show (if p.1 == k then ((k, h) : Nat × Hint) else p) = p from by
        rw [if_neg hp]]
      rw [mlookup_cons, mlookup_cons]
      by_cases hpk2 : (p.1 == k2) = true
      · rw [if_pos hpk2, if_pos hpk2]
      · rw [if_neg hpk2, if_neg hpk2]
        exact ih

/-- `marks.get` through an appended tail, prefix hit. -/
theorem mlookup_append_left {m : Marks} {k2 : Nat} {v : Hint}
    (l2 : Marks) (h : mlookup m k2 = some v) :
    mlookup (m ++ l2) k2 = some v := by
  induction m with
  | nil => exact absurd h (by intro hh; exact Option.noConfusion hh)
  | cons p t ih =>
    rw [List.cons_append, mlookup_cons]
    rw [mlookup_cons] at h
    by_cases hp : (p.1 == k2) = true
    · rw [if_pos hp]
      rw [if_pos hp] at h
      exact h
    · rw [if_neg hp]
      rw [if_neg hp] at h
      exact ih h

/-- `marks.get` through an appended tail, prefix miss. -/
theorem mlookup_append_right {m : Marks} {k2 : Nat}
    (l2 : Marks) (h : mlookup m k2 = none) :
    mlookup (m ++ l2) k2 = mlookup l2 k2 := by
  induction m with
  | nil => rfl
  | cons p t ih =>
    rw [List.cons_append, mlookup_cons]
    rw [mlookup_cons] at h
    by_cases hp : (p.1 == k2) = true
    · rw [if_pos hp] at h
      exact absurd h (by intro hh; exact Option.noConfusion hh)
    · rw [if_neg hp]
      rw [if_neg hp] at h
      exact ih h

/-- `marks.set` rewrites exactly the requested key. -/
theorem mlookup_mset (m : Marks) (k : Nat) (h : Hint) (k2 : Nat) :
    mlookup (mset m k h) k2 = if k2 = k then some h else mlookup m k2 := by
  unfold mset
  split
  · next hm =>
    by_cases hk : k2 = k
    · subst hk
      rw [mlookup_map_set_self m k2 h hm, if_pos rfl]
    · rw [mlookup_map_set_other m k h k2 hk, if_neg hk]
  · next hm =>
    have hm2 : mhas m k = false := by simpa using hm
    by_cases hk : k2 = k
    · subst hk
      have hnone : mlookup m k2 = none := by
        have h5 := mhas_eq_isSome m k2
        rw [hm2] at h5
        cases hml : mlookup m k2 with
        | none => rfl
        | some v => rw [hml] at h5; exact absurd h5.symm (by simp)
      rw [mlookup_append_right _ hnone, mlookup_cons, if_pos rfl,
        if_pos (show (((k2, h) : Nat × Hint).1 == k2) = true from by simp)]
    · rw [if_neg hk]
      cases hml : mlookup m k2 with
      | some v => exact mlookup_append_left _ hml
      | none =>
        rw [mlookup_append_right _ hml, mlookup_cons,
          if_neg (show ¬ (((k, h) : Nat × Hint).1 == k2) = true from by
            simp
            exact fun hh => hk hh.symm)]
        rfl

/-- Coupled fold: a simulation step lifts to the whole fold. -/
theorem foldl_rel {α β γ : Type} (R : α → β → Prop) (f : α → γ → α)
    (g : β → γ → β) (hstep : ∀ a b c, R a b → R (f a c) (g b c)) :
    ∀ (l : List γ) (a : α) (b : β), R a b → R (l.foldl f a) (l.foldl g b) := by
  intro l
  induction l with
  | nil => intro a b h; exact h
  | cons x t ih =>
    intro a b h
    exact ih _ _ (hstep a b x h)

/-- Updating one key preserves the coupling of the assignments. -/
theorem mset_assign_rel {ms : Marks} {f : HintMap}
    (h1 : ∀ k, mlookup ms k = f k) (k0 : Nat) (h : Hint) :
    ∀ k2, mlookup (mset ms k0 h) k2 = assignHint f k0 h k2 := by
  intro k2
  rw [mlookup_mset]
  unfold assignHint
  by_cases hk : k2 = k0
  · rw [if_pos hk, if_pos hk]
  · rw [if_neg hk, if_neg hk]
    exact h1 k2

/-- Pass 1 couples with the specification's green pass. -/
theorem pass1_rel (board : List Tile) (size : Nat)
    (secrets : List (List Char)) (st : MarkSt) (sp : SpecSt)
    (h : MarksRel st sp) :
    MarksRel (pass1 board size secrets st) (specGreens board size secrets sp)
    := by
  unfold pass1 specGreens
  refine foldl_rel MarksRel _ _ ?_ _ st sp h
  intro a b i hab
  obtain ⟨h1, h2, h3⟩ := hab
  cases hb : board[i]? with
  | none => exact ⟨h1, h2, h3⟩
  | some t =>
    simp only
    split
    · next hc =>
      refine ⟨mset_assign_rel h1 t.id .g, ?_, ?_⟩
      · show updAt a.rowNeed (i / size) (decNeed (a.rowNeed (i / size)) t.char)
          = updAt b.rowNeed (i / size) (decNeed (b.rowNeed (i / size)) t.char)
        rw [h2]
      · show updAt a.colNeed (i % size) (decNeed (a.colNeed (i % size)) t.char)
          = updAt b.colNeed (i % size) (decNeed (b.colNeed (i % size)) t.char)
        rw [h3]
    · exact ⟨h1, h2, h3⟩

/-- Pass 2 couples with the specification's orange pass. -/
theorem pass2_rel (board : List Tile) (size : Nat)
    (secrets : List (List Char)) (locked : List Nat) (st : MarkSt)
    (sp : SpecSt) (h : MarksRel st sp) :
    MarksRel (pass2 board size secrets locked st)
      (specOranges board size secrets locked sp) := by
  unfold pass2 specOranges
  refine foldl_rel MarksRel _ _ ?_ _ st sp h
  intro a b r hab
  split
  · exact hab
  · refine foldl_rel MarksRel _ _ ?_ _ a b hab
    intro a2 b2 c hab2
    obtain ⟨h1, h2, h3⟩ := hab2
    cases hb : board[cellIdx r c size]? with
    | none => exact ⟨h1, h2, h3⟩
    | some t =>
      simp only
      have hg : mhas a2.marks t.id = (b2.hints t.id).isSome := by
        rw [mhas_eq_isSome, h1 t.id]
      rw [hg, h2]
      split
      · exact ⟨h1, h2, h3⟩
      · split
        · exact ⟨mset_assign_rel h1 t.id .o, rfl, h3⟩
        · exact ⟨h1, h2, h3⟩

/-- Pass 3 couples with the specification's yellow pass. -/
theorem pass3_rel (board : List Tile) (size : Nat)
    (secrets : List (List Char)) (st : MarkSt) (sp : SpecSt)
    (h : MarksRel st sp) :
    MarksRel (pass3 board size secrets st) (specYellows board size secrets sp)
    := by
  unfold pass3 specYellows
  refine foldl_rel MarksRel _ _ ?_ _ st sp h
  intro a b c hab
  refine foldl_rel MarksRel _ _ ?_ _ a b hab
  intro a2 b2 r hab2
  obtain ⟨h1, h2, h3⟩ := hab2
  cases hb : board[cellIdx r c size]? with
  | none => exact ⟨h1, h2, h3⟩
  | some t =>
    simp only
    have hg : mhas a2.marks t.id = (b2.hints t.id).isSome := by
      rw [mhas_eq_isSome, h1 t.id]
    rw [hg, h3]
    split
    · exact ⟨h1, h2, h3⟩
    · split
      · exact ⟨mset_assign_rel h1 t.id .y, h2, rfl⟩
      · exact ⟨h1, h2, h3⟩

/-- Pass 4 couples with the specification's gray pass. -/
theorem pass4_rel (board : List Tile) (size : Nat) (st : MarkSt)
    (sp : SpecSt) (h : MarksRel st sp) :
    MarksRel (pass4 board size st) (specGrays board size sp) := by
  unfold pass4 specGrays
  refine foldl_rel MarksRel _ _ ?_ _ st sp h
  intro a b i hab
  obtain ⟨h1, h2, h3⟩ := hab
  cases hb : board[i]? with
  | none => exact ⟨h1, h2, h3⟩
  | some t =>
    simp only
    have hg : mhas a.marks t.id = (b.hints t.id).isSome := by
      rw [mhas_eq_isSome, h1 t.id]
    rw [hg]
    split
    · exact ⟨h1, h2, h3⟩
    · exact ⟨mset_assign_rel h1 t.id .x, h2, h3⟩

/-- The map `computeMarks` builds agrees pointwise with the
specification-worded assignment. -/
theorem computeMarks_eq_spec (board : List Tile) (size : Nat)
    (secrets : List (List Char)) (locked : List Nat) :
    ∀ k, mlookup (computeMarks board size secrets locked) k =
      specMarks board size secrets locked k := by
  have h0 : MarksRel
      ⟨[], mkRowNeed secrets size, mkColNeed secrets size⟩
      ⟨fun _ => none, mkRowNeed secrets size, mkColNeed secrets size⟩ :=
    ⟨fun _ => rfl, rfl, rfl⟩
  have h4 := pass4_rel board size _ _
    (pass3_rel board size secrets _ _
      (pass2_rel board size secrets locked _ _
        (pass1_rel board size secrets _ _ h0)))
  exact h4.1

/-- A key just set is present. -/
theorem mhas_mset_self (m : Marks) (k : Nat) (h : Hint) :
    mhas (mset m k h) k = true := by
  rw [mhas_iff_mem_mkeys, mkeys_mset]
  split
  · next hm => exact (mhas_iff_mem_mkeys m k).mp hm
  · simp

/-- Present keys survive any `marks.set`. -/
theorem mhas_mset_mono {m : Marks} {k : Nat} (k2 : Nat) (h2 : Hint)
    (h : mhas m k = true) : mhas (mset m k2 h2) k = true := by
  rw [mhas_iff_mem_mkeys, mkeys_mset]
  split
  · exact (mhas_iff_mem_mkeys m k).mp h
  · exact List.mem_append.mpr (Or.inl ((mhas_iff_mem_mkeys m k).mp h))

/-- A fold whose step never drops keys and establishes the key of each
visited element covers every visited element. -/
theorem foldl_covers (F : MarkSt → Nat → MarkSt) (key : Nat → Option Nat)
    (hmono : ∀ st i k, mhas st.marks k = true →
      mhas ((F st i).marks) k = true)
    (hens : ∀ st i k, key i = some k → mhas ((F st i).marks) k = true) :
    ∀ (l : List Nat) (st : MarkSt) (i k : Nat),
      i ∈ l → key i = some k → mhas ((l.foldl F st).marks) k = true := by
  intro l
  induction l with
  | nil => intro st i k hi _; exact absurd hi (List.not_mem_nil i)
  | cons x xs ih =>
    intro st i k hi hk
    rw [List.foldl_cons]
    rcases List.mem_cons.mp hi with hx | hx
    · subst hx
      exact foldl_preserve (fun st : MarkSt => mhas st.marks k = true) F
        (fun st2 j hj => hmono st2 j k hj) xs (F st i) (hens st i k hk)
    · exact ih (F st x) i k hx hk

/-- Pass 4 marks every tile that is still unmarked, so afterwards every
tile of the board carries a hint. -/
theorem pass4_covers (board : List Tile) (size : Nat) (st : MarkSt)
    (i : Nat) (t : Tile) (hi : i < size * size) (hb : board[i]? = some t) :
    mhas (pass4 board size st).marks t.id = true := by
  unfold pass4
  refine foldl_covers _ (fun j => (board[j]?).map Tile.id) ?_ ?_
    (List.range (size * size)) st i t.id (List.mem_range.mpr hi)
    (by show Option.map Tile.id board[i]? = some t.id
        rw [hb]
        rfl)
  · intro st2 j k hj
    cases board[j]? with
    | none => exact hj
    | some t2 =>
      simp only
      split
      · exact hj
      · exact mhas_mset_mono t2.id .x hj
  · intro st2 j k hj
    have hj2 : Option.map Tile.id board[j]? = some k := hj
    cases hb2 : board[j]? with
    | none => rw [hb2] at hj2; exact absurd hj2 (by simp)
    | some t2 =>
      rw [hb2] at hj2
      have hj3 : t2.id = k := by simpa using hj2
      simp only
      split
      · next hs => rw [← hj3]; exact hs
      · rw [← hj3]
        exact mhas_mset_self st2.marks t2.id .x

/-- C1: for every board, size, target-word list and locked-row set, the
map built by `computeMarks` (i) agrees pointwise with the
specification-worded four-pass assignment `specMarks` (green > orange >
yellow > gray, with per-row / per-column remaining-need counters), (ii)
holds at most one entry per tile id, and (iii) assigns a hint to every
tile of the board — together: exactly one hint per tile, as specified. -/
theorem c1_marks_spec (board : List Tile) (size : Nat)
    (secrets : List (List Char)) (locked : List Nat) :
    (∀ k, mlookup (computeMarks board size secrets locked) k =
      specMarks board size secrets locked k) ∧
    (mkeys (computeMarks board size secrets locked)).Nodup ∧
    (∀ i t, i < size * size → board[i]? = some t →
      mhas (computeMarks board size secrets locked) t.id = true) := by
  refine ⟨computeMarks_eq_spec board size secrets locked,
    computeMarks_keys_nodup board size secrets locked, ?_⟩
  intro i t hi hb
  show mhas (pass4 board size
    (pass3 board size secrets
      (pass2 board size secrets locked
        (pass1 board size secrets
          ⟨[], mkRowNeed secrets size, mkColNeed secrets size⟩)))).marks
    t.id = true
  exact pass4_covers board size _ i t hi hb

/-- Witness for C1 at a concrete input: on the counterexample board the
engine and the specification agree at tile 1, and the board is fully
covered. -/
theorem c1_marks_spec_witness :
    mlookup (computeMarks cexBoardM 5 cexWords [0]) 6 =
      specMarks cexBoardM 5 cexWords [0] 6 ∧
    mhas (computeMarks cexBoardM 5 cexWords [0]) 6 = true :=
  ⟨(c1_marks_spec cexBoardM 5 cexWords [0]).1 6,
    (c1_marks_spec cexBoardM 5 cexWords [0]).2.2 0 (Tile.mk 6 'R')
      (by omega) (by simp [cexBoardM])⟩

end Wordgami
